import Mathlib

/-!
Verification development for the stochastic translation process
(`vivarium_cell/processes/translation.py`).

The process's `next_update` method runs a hybrid discrete/continuous
simulation loop: a stochastic initiation sampler (the external `arrow`
`StochasticSystem`, supplied here as an oracle of per-iteration event
lists) interleaved with a continuous elongation stepper
(`vivarium_cell/library/polymerize.py`, which is not part of the sources
under verification and is therefore modelled from the specification where
marked).  Python dicts are embedded as insertion-ordered association
lists, numpy int64 arrays as `List ℤ`, and floats as `ℚ`.
-/

set_option maxHeartbeats 1000000

namespace VivCell

/-- Transcript key: an (operon, gene-product) pair, exactly the keys of
`transcript_affinities` in translation.py. -/
abbrev TKey := String × String

/-- Insertion-ordered association list standing for a python dict with
string keys and integer values (counts and count deltas). -/
abbrev MolMap := List (String × ℤ)

/-- Dict lookup: first binding wins (`dictSet` keeps keys unique). -/
def dictGet (m : MolMap) (k : String) : Option ℤ :=
  (m.find? (fun p => p.1 == k)).map Prod.snd

/-- Dict lookup with default, python `d.get(k, default)`. -/
def dictGetD (m : MolMap) (k : String) (d : ℤ) : ℤ :=
  (dictGet m k).getD d

/-- Dict membership test. -/
def dictMem (m : MolMap) (k : String) : Bool :=
  m.any (fun p => p.1 == k)

/-- Python dict assignment `d[k] = v`: overwrite in place when the key is
present, otherwise append, preserving insertion order. -/
def dictSet (m : MolMap) (k : String) (v : ℤ) : MolMap :=
  if dictMem m k then m.map (fun p => if p.1 == k then (k, v) else p)
  else m ++ [(k, v)]

/-- Python `d[k] = d.get(k, 0) + v`. -/
def dictAdd (m : MolMap) (k : String) (v : ℤ) : MolMap :=
  dictSet m k (dictGetD m k 0 + v)

/-- In-range list update; numpy `a[i] = v` on an int64 vector (all claim
scenarios index in range, where this agrees with the numpy semantics). -/
def setIdx : List ℤ → Nat → ℤ → List ℤ
  | [], _, _ => []
  | _ :: xs, 0, v => v :: xs
  | x :: xs, Nat.succ n, v => x :: setIdx xs n v

/-- Read of an int64 vector entry. -/
def getIdx (l : List ℤ) (i : Nat) : ℤ := l.getD i 0

/-- numpy `a[i] += d`. -/
def bumpIdx (l : List ℤ) (i : Nat) (d : ℤ) : List ℤ := setIdx l i (getIdx l i + d)

/-- Ribosome lifecycle states.  Names follow the Polymerase state machine
as the spec (§4.3) and the doctest of translation.py (line 276) describe
it: a freshly created ribosome is bound then immediately `occluding`
(polymerizing while still blocking its binding site); once its position
passes the occlusion window it becomes `polymerizing` (no longer
occluding); `complete` marks termination.  The Polymerase class itself
lives in `vivarium_cell/library/polymerize.py`, outside the verified
sources, and is modelled from the spec. -/
inductive RState
  | bound
  | occluding
  | polymerizing
  | complete
  deriving DecidableEq, Repr

/-- A ribosome record, matching the `ribosomes` port schema of
translation.py (lines 353-376) and the Polymerase fields shown in the
doctest: id, state, position, template, template_index, terminator. -/
structure Ribosome where
  id : Nat
  state : RState
  position : Nat
  template : TKey
  template_index : Nat
  terminator : Nat
  deriving DecidableEq, Repr

/-- Modelled from the spec: `Polymerase.is_bound` — a ribosome counts
toward its transcript's bound count while bound or still occluding
(spec §3: bound count is incremented on binding, decremented only at
unocclusion). -/
def Ribosome.is_bound (r : Ribosome) : Bool :=
  r.state == .bound || r.state == .occluding

/-- Modelled from the spec: `Polymerase.is_unoccluding(occlusion)` — the
occlusion flag clears when the position has advanced at least the
occlusion window while the ribosome is still occluding (spec §4.3). -/
def Ribosome.is_unoccluding (r : Ribosome) (occlusion : Nat) : Bool :=
  r.state == .occluding && decide (occlusion ≤ r.position)

/-- Python dict assignment `ribosomes[r.id] = r`. -/
def ribInsert (ribs : List Ribosome) (r : Ribosome) : List Ribosome :=
  if ribs.any (fun x => x.id == r.id) then
    ribs.map (fun x => if x.id == r.id then r else x)
  else ribs ++ [r]

/-- Static configuration of the Translation process as digested by
`Translation.__init__` (translation.py:279-341).  Template data (the
terminator position and its product list, from `generate_template`) is
modelled from the spec §4.4/§6 because library/polymerize.py is not under
the verified sources. -/
structure Config where
  transcript_order : List TKey
  transcript_affinities : List (TKey × ℚ)
  sequences : TKey → List Char
  symbol_to_monomer : Char → String
  terminator_of : TKey → Nat
  products_of : TKey → List String
  elongation_rate : ℚ
  polymerase_occlusion : Nat
  monomer_ids : List String

/-- One grouping step of `gather_genes`: append product p to operon o's
group, python-dict insertion order. -/
def addGene (genes : List (String × List String)) (o p : String) :
    List (String × List String) :=
  if genes.any (fun g => g.1 == o) then
    genes.map (fun g => if g.1 == o then (g.1, g.2 ++ [p]) else g)
  else genes ++ [(o, [p])]

/-- `gather_genes` (translation.py:51-57): group the affinity-map keys by
operon, preserving first-appearance order. -/
def gather_genes (keys : List TKey) : List (String × List String) :=
  keys.foldl (fun acc k => addGene acc k.1 k.2) []

/-- `transcripts_to_gene_counts` (translation.py:59-64): per (operon,
gene) pair, in operon-grouped order, the copy count of the operon in the
input transcript counts (`transcripts.get(transcript, 0)`). -/
def transcripts_to_gene_counts (transcripts : MolMap)
    (operons : List (String × List String)) : List ℤ :=
  operons.flatMap (fun og => og.2.map (fun _ => dictGetD transcripts og.1 0))

/-- Modelled from the spec: state of the Elongation stepper of
library/polymerize.py (not under the verified sources), following spec
§4.4: `elongation` is the accumulated progress in monomer units (whole
part: completed full-grain steps, fractional part: the carried-over
offset), `monomers` the per-monomer consumption accumulator, and
`complete_polymers` the finished-product accumulator. -/
structure Elongation where
  elongation : ℚ
  monomers : MolMap
  complete_polymers : MolMap
  deriving DecidableEq, Repr

/-- Accumulator threaded through one full-grain elongation pass. -/
structure StepAcc where
  pool : MolMap
  ribs : List Ribosome
  terminations : ℤ
  monomers : MolMap
  complete : MolMap
  deriving DecidableEq, Repr

/-- Modelled from the spec: one full-grain advance of a single ribosome
(spec §4.4).  A polymerizing (or still-occluding) ribosome advances one
monomer provided the pool has that monomer available; the consumption is
recorded; a ribosome whose advanced position reaches its template's
terminator is finalized: removed from the live set, its products
credited, and counted toward the termination count.  A blocked or
non-polymerizing ribosome is kept unchanged. -/
def advanceRibosome (cfg : Config) (acc : StepAcc) (r : Ribosome) : StepAcc :=
  if r.state == .occluding || r.state == .polymerizing then
    let seq := cfg.sequences r.template
    if r.position < seq.length then
      let m := cfg.symbol_to_monomer (seq.getD r.position ' ')
      if 0 < dictGetD acc.pool m 0 then
        let pool := dictAdd acc.pool m (-1)
        let monomers := dictAdd acc.monomers m 1
        let pos := r.position + 1
        if cfg.terminator_of r.template ≤ pos then
          { acc with
            pool := pool
            monomers := monomers
            terminations := acc.terminations + 1
            complete := (cfg.products_of r.template).foldl
              (fun c pr => dictAdd c pr 1) acc.complete }
        else
          { acc with
            pool := pool
            monomers := monomers
            ribs := acc.ribs ++ [{ r with position := pos }] }
      else { acc with ribs := acc.ribs ++ [r] }
    else { acc with ribs := acc.ribs ++ [r] }
  else { acc with ribs := acc.ribs ++ [r] }

/-- Modelled from the spec: `Elongation.step` for one full grain (an
interval of exactly `1/elongation_rate`, spec §4.4 and §4.5 step 4):
every polymerizing ribosome advances one monomer subject to pool
availability, the progress counter gains one whole monomer, terminated
ribosomes are removed and counted.  Returns the updated stepper state,
monomer pool, live ribosome list and termination count. -/
def Elongation.step (cfg : Config) (e : Elongation) (pool : MolMap)
    (ribs : List Ribosome) : Elongation × MolMap × List Ribosome × ℤ :=
  let acc := ribs.foldl (advanceRibosome cfg)
    { pool := pool, ribs := [], terminations := 0,
      monomers := e.monomers, complete := e.complete_polymers }
  ({ elongation := e.elongation + 1, monomers := acc.monomers,
     complete_polymers := acc.complete },
   acc.pool, acc.ribs, acc.terminations)

/-- Modelled from the spec: `Elongation.store_partial` renamed — the
partial-step mode of spec §4.4: an interval shorter than one grain only
records fractional progress (`interval * elongation_rate` monomer units,
so that the elongation rate is respected exactly); no monomer is
consumed and no termination happens. -/
def Elongation.storeFractionalStep (cfg : Config) (e : Elongation)
    (interval : ℚ) : Elongation :=
  { e with elongation := e.elongation + interval * cfg.elongation_rate }

/-- Incoming snapshot of one `next_update` call (translation.py:421-428):
the ribosome collection, molecule counts, transcript counts per operon,
and protein counts (including the unbound-ribosome counter). -/
structure Snapshot where
  ribosomes : List Ribosome
  molecules : MolMap
  transcripts : MolMap
  proteins : MolMap
  deriving DecidableEq, Repr

/-- Mutable process fields that persist across `next_update` calls:
`self.elongation` (translation.py:317 and 534) and `self.ribosome_id`
(translation.py:330 and 513). -/
structure PState where
  elongation : ℚ
  ribosome_id : Nat
  deriving DecidableEq, Repr

/-- State carried by the while loop of `next_update`
(translation.py:476-531), plus the fixed gene-count vector and an
iteration counter used to index the sampler oracle.

`origView` models the live `dict.keys()` view taken at
translation.py:430 and materialized at line 544: it tracks the key set
of the dict object bound to `ribosomes` at call entry.  `rebound`
records whether line 491 has rebound the name `ribosomes` to the fresh
dict the elongation stepper returns (which happens on the first
full-grain iteration); before that rebinding the event insert at line
520 mutates the viewed dict, so the inserted id enters `origView`;
after it, inserts land in the fresh dict and the view is frozen. -/
structure LoopState where
  time : ℚ
  gene : List ℤ
  bound : List ℤ
  unbound : ℤ
  pool : MolMap
  ribosomes : List Ribosome
  elong : Elongation
  counter : Nat
  iter : Nat
  rebound : Bool
  origView : List Nat
  deriving DecidableEq, Repr

/-- Reserved protein-port key for the unbound ribosome pool
(translation.py:37). -/
def UNBOUND_RIBOSOME_KEY : String := "Ribosome"

/-- Initial per-transcript bound counts (translation.py:436-448): for each
transcript in canonical order, the number of incoming ribosomes on that
transcript that are still in a bound (occluding) state. -/
def bound0 (cfg : Config) (ribs : List Ribosome) : List ℤ :=
  cfg.transcript_order.map
    (fun tk => ((ribs.filter (fun r => r.template == tk && r.is_bound)).length : ℤ))

/-- `monomer_limits` (translation.py:458-460): the monomer pool read off
the molecules port. -/
def pool0 (cfg : Config) (molecules : MolMap) : MolMap :=
  cfg.monomer_ids.map (fun m => (m, dictGetD molecules m 0))

/-- Loop state at entry of the while loop (translation.py:430-474). -/
def initLoop (cfg : Config) (ps : PState) (snap : Snapshot) : LoopState :=
  { time := 0
    gene := transcripts_to_gene_counts snap.transcripts
      (gather_genes (cfg.transcript_affinities.map Prod.fst))
    bound := bound0 cfg snap.ribosomes
    unbound := dictGetD snap.proteins UNBOUND_RIBOSOME_KEY 0
    pool := pool0 cfg snap.molecules
    ribosomes := snap.ribosomes
    elong := { elongation := ps.elongation, monomers := [], complete_polymers := [] }
    counter := ps.ribosome_id
    iter := 0
    rebound := false
    origView := snap.ribosomes.map Ribosome.id }

/-- Free counts used to build the substrate vector:
`gene_counts - bound_transcripts` (translation.py:478-479). -/
def freeCounts (s : LoopState) : List ℤ :=
  List.zipWith (fun g b => g - b) s.gene s.bound

/-- The substrate vector handed to the stochastic sampler
(translation.py:478-481): free counts, then bound counts, then the
unbound ribosome count. -/
def substrate (s : LoopState) : List ℤ :=
  freeCounts s ++ s.bound ++ [s.unbound]

/-- Elongation phase of one loop iteration (translation.py:483-498): when
a full grain fits in the remaining time the stepper runs and its
termination count increments the unbound pool; otherwise only the
trailing fractional progress is stored. -/
def elongPhase (cfg : Config) (T : ℚ) (s : LoopState) : LoopState :=
  let distance := 1 / cfg.elongation_rate
  let interval := min distance (T - s.time)
  if interval = distance then
    let r := Elongation.step cfg s.elong s.pool s.ribosomes
    { s with elong := r.1, pool := r.2.1, ribosomes := r.2.2.1,
             unbound := s.unbound + r.2.2.2 }
  else
    { s with elong := s.elong.storeFractionalStep cfg interval }

/-- Python dict-key-set insertion: the effect of `d[i] = v` on `d.keys()`. -/
def insertId (ids : List Nat) (i : Nat) : List Nat :=
  if ids.contains i then ids else ids ++ [i]

/-- Apply one sampled binding event (translation.py:506-523): bump the
bound count at the event index, issue a fresh monotonically increasing
id, create the ribosome — the source omits `template_index` from the
constructor call, so it keeps the Polymerase default 0, as the doctest
at translation.py:276 shows — bind it and start polymerizing (final
state `occluding`), insert it, and decrement the unbound pool.  The
insert at line 520 mutates whichever dict the name `ribosomes` currently
denotes: before the first rebinding at line 491 that is the dict viewed
by line 430's `keys()` view, so the new id also enters `origView`. -/
def applyEvent (cfg : Config) (s : LoopState) (ev : ℚ × Nat) : LoopState :=
  let event := ev.2
  let tkey := cfg.transcript_order.getD event ("", "")
  let counter := s.counter + 1
  let r : Ribosome :=
    { id := counter, state := .occluding, position := 0,
      template := tkey, template_index := 0, terminator := 0 }
  { s with bound := bumpIdx s.bound event 1
           counter := counter
           ribosomes := ribInsert s.ribosomes r
           unbound := s.unbound - 1
           origView := if s.rebound then s.origView else insertId s.origView counter }

/-- Event-application phase (translation.py:506-523): fold the sampler's
event list for this iteration, in returned order, over the state. -/
def eventsPhase (cfg : Config) (oracle : Nat → List (ℚ × Nat))
    (s : LoopState) : LoopState :=
  (oracle s.iter).foldl (applyEvent cfg) s

/-- One step of the occlusion sweep (translation.py:525-529): a ribosome
that is unoccluding (still occluding, position at or past the occlusion
window) decrements the bound count at its recorded `template_index` and
stops occluding; any other ribosome passes through unchanged. -/
def sweepStep (occ : Nat) (acc : List ℤ × List Ribosome) (r : Ribosome) :
    List ℤ × List Ribosome :=
  if r.is_unoccluding occ then
    (bumpIdx acc.1 r.template_index (-1), acc.2 ++ [{ r with state := .polymerizing }])
  else
    (acc.1, acc.2 ++ [r])

/-- Occlusion sweep phase (translation.py:525-529). -/
def sweepPhase (cfg : Config) (s : LoopState) : LoopState :=
  let p := s.ribosomes.foldl (sweepStep cfg.polymerase_occlusion) (s.bound, [])
  { s with bound := p.1, ribosomes := p.2 }

/-- One iteration of the while loop (translation.py:476-531): elongation
phase — when the full-grain branch runs, line 491 rebinds the name
`ribosomes` to the fresh dict the stepper returns, freezing the live
keys view of line 430, recorded here by setting `rebound` — then the
sampled binding events, then the occlusion sweep, then the time advances
by `interval = min(1/elongation_rate, T - time)`. -/
def loopStep (cfg : Config) (oracle : Nat → List (ℚ × Nat)) (T : ℚ)
    (s : LoopState) : LoopState :=
  let distance := 1 / cfg.elongation_rate
  let interval := min distance (T - s.time)
  let s1 := elongPhase cfg T s
  let s1b := if interval = distance then { s1 with rebound := true } else s1
  let s3 := sweepPhase cfg (eventsPhase cfg oracle s1b)
  { s3 with time := s.time + interval, iter := s.iter + 1 }

/-- Fuelled unfolding of the while loop `while time < timestep`
(translation.py:476).  Claim C5 shows fuel `loopFuel` suffices to reach
`time = timestep`. -/
def loopN (cfg : Config) (oracle : Nat → List (ℚ × Nat)) (T : ℚ) :
    Nat → LoopState → LoopState
  | 0, s => s
  | Nat.succ n, s =>
    if s.time < T then loopN cfg oracle T n (loopStep cfg oracle T s) else s

/-- Computable ceiling of a rational. -/
def ceilQ (q : ℚ) : ℤ := -(Rat.floor (-q))

/-- Fuel sufficient for the loop: `T * elongation_rate + 1` iterations. -/
def loopFuel (cfg : Config) (T : ℚ) : Nat :=
  (ceilQ (T * cfg.elongation_rate)).toNat + 1

/-- Python `int()` truncation toward zero on a rational
(translation.py:534). -/
def pytrunc (q : ℚ) : ℤ := if 0 ≤ q then Rat.floor q else -(Rat.floor (-q))

/-- One step of the ATP/ADP bookkeeping fold (translation.py:553-555):
`molecules['ATP'] -= 2 * count; molecules['ADP'] += 2 * count`. -/
def atpFold (acc : MolMap) (p : String × ℤ) : MolMap :=
  dictSet (dictSet acc "ATP" (dictGetD acc "ATP" 0 - 2 * p.2))
    "ADP" (dictGetD acc "ADP" 0 + 2 * p.2)

/-- Molecule delta assembly (translation.py:540-555): negate the consumed
monomer map, then set ATP and ADP to 0, then fold the two-per-monomer
ATP/ADP bookkeeping over the consumed counts. -/
def assembleMolecules (monomers : MolMap) : MolMap :=
  monomers.foldl atpFold
    (dictSet (dictSet (monomers.map (fun p => (p.1, -p.2))) "ATP" 0) "ADP" 0)

/-- Protein delta assembly (translation.py:536-538): the unbound-ribosome
count change, updated with the finished-polymer accumulator. -/
def assembleProteins (unboundDelta : ℤ) (complete : MolMap) : MolMap :=
  complete.foldl (fun acc p => dictSet acc p.1 p.2)
    [(UNBOUND_RIBOSOME_KEY, unboundDelta)]

/-- The structured ribosome-collection update (translation.py:557-570):
continuing ribosomes overwritten with their full state, an add list and
a delete list. -/
structure RibosomeUpdate where
  overwrites : List Ribosome
  add : List Ribosome
  delete : List Nat
  deriving DecidableEq, Repr

/-- The update record `next_update` returns (translation.py:572-577). -/
structure Update where
  ribosomes : RibosomeUpdate
  molecules : MolMap
  proteins : MolMap
  deriving DecidableEq, Repr

/-- Ribosome population diff (translation.py:544-570): `original` is the
id set line 544 reads off the live `keys()` view taken at line 430 (the
entry ids, plus any id inserted before the first full-grain rebinding of
the `ribosomes` name); the final ribosomes still in `original` are
overwritten, the rest are added, and original ids no longer present are
deleted. -/
def assembleRibosomes (original : List Nat) (final : List Ribosome) :
    RibosomeUpdate :=
  { overwrites := final.filter (fun r => original.contains r.id)
    add := final.filter (fun r => !(original.contains r.id))
    delete := original.filter (fun i => !((final.map Ribosome.id).contains i)) }

/-- `Translation.next_update` (translation.py:421-577), with the external
stochastic sampler supplied as an oracle: `oracle k` is the time-ordered
event list the arrow `StochasticSystem.evolve` call returns on loop
iteration `k` (§4.2 contract).  Returns the persistent process fields for
the next call and the emitted update. -/
def next_update (cfg : Config) (oracle : Nat → List (ℚ × Nat)) (ps : PState)
    (T : ℚ) (snap : Snapshot) : PState × Update :=
  let s0 := initLoop cfg ps snap
  let sF := loopN cfg oracle T (loopFuel cfg T) s0
  let ps2 : PState :=
    { elongation := sF.elong.elongation - pytrunc sF.elong.elongation
      ribosome_id := sF.counter }
  (ps2,
   { ribosomes := assembleRibosomes sF.origView sF.ribosomes
     molecules := assembleMolecules sF.elong.monomers
     proteins := assembleProteins (sF.unbound - s0.unbound) sF.elong.complete_polymers })

/-- Configuration parameters consumed by `Translation.__init__`. -/
structure InitParams where
  sequences : List (TKey × List Char)
  template_terminators : List (TKey × Nat)
  transcript_affinities : List (TKey × ℚ)
  elongation_rate : ℚ
  polymerase_occlusion : Nat
  monomer_ids : List String
  deriving Repr

/-- Affinity-map lookup with default. -/
def affGetD (l : List (TKey × ℚ)) (k : TKey) (d : ℚ) : ℚ :=
  ((l.find? (fun p => p.1 == k)).map Prod.snd).getD d

/-- Fields derived at construction (translation.py:279-341). -/
structure InitResult where
  transcript_order : List TKey
  operons : List (String × List String)
  operon_order : List String
  transcript_count : Nat
  affinity_vector : List ℚ
  molecule_ids : List String
  elongation_rate : ℚ
  polymerase_occlusion : Nat
  elongation : ℚ
  ribosome_id : Nat
  deriving DecidableEq, Repr

/-- `Translation.__init__` (translation.py:279-341): derives the canonical
transcript order from the affinity-map keys, groups operons, builds the
affinity vector in that order, extends the molecule ids with ATP and
ADP, and zeroes the elongation offset and the ribosome id counter.  The
constructor is total: the source performs no validation of affinities,
key consistency, or the elongation rate. -/
def translationInit (p : InitParams) : InitResult :=
  let order := p.transcript_affinities.map Prod.fst
  let ops := gather_genes order
  { transcript_order := order
    operons := ops
    operon_order := ops.map Prod.fst
    transcript_count := order.length
    affinity_vector := order.map (fun k => affGetD p.transcript_affinities k 0)
    molecule_ids := p.monomer_ids ++ ["ATP", "ADP"]
    elongation_rate := p.elongation_rate
    polymerase_occlusion := p.polymerase_occlusion
    elongation := 0
    ribosome_id := 0 }

/-! ### Dictionary lemmas -/

theorem dictGet_cons (p : String × ℤ) (l : MolMap) (k : String) :
    dictGet (p :: l) k = if p.1 == k then some p.2 else dictGet l k := by
  simp only [dictGet, List.find?_cons]
  cases h : p.1 == k <;> simp [h]

theorem dictGet_eq_none_of_not_mem (l : MolMap) (k : String)
    (h : dictMem l k = false) : dictGet l k = none := by
  induction l with
  | nil => rfl
  | cons p t ih =>
    simp only [dictMem, List.any_cons, Bool.or_eq_false_iff] at h
    rw [dictGet_cons, if_neg (by simp [h.1]), ih]
    simp [dictMem, h.2]

theorem dictGet_mapSet_ne (l : MolMap) (k m : String) (v : ℤ) (h : k ≠ m) :
    dictGet (l.map (fun p => if p.1 == k then (k, v) else p)) m = dictGet l m := by
  induction l with
  | nil => rfl
  | cons p t ih =>
    by_cases hp : p.1 = k
    · simp only [List.map_cons, if_pos (show (p.1 == k) = true by simp [hp])]
      simp only [dictGet_cons, ih]
      rw [if_neg (by simp [h]), if_neg (by simp [hp, h])]
    · simp only [List.map_cons, if_neg (show ¬(p.1 == k) = true by simp [hp])]
      simp only [dictGet_cons, ih]

theorem dictGet_append_single_ne (l : MolMap) (k m : String) (v : ℤ) (h : k ≠ m) :
    dictGet (l ++ [(k, v)]) m = dictGet l m := by
  have hkm : (k == m) = false := beq_eq_false_iff_ne.mpr h
  simp only [dictGet, List.find?_append]
  cases hf : l.find? (fun p => p.1 == m) <;> simp [List.find?, hkm]

theorem dictGet_dictSet_ne (l : MolMap) (k m : String) (v : ℤ) (h : k ≠ m) :
    dictGet (dictSet l k v) m = dictGet l m := by
  unfold dictSet
  split
  · exact dictGet_mapSet_ne l k m v h
  · exact dictGet_append_single_ne l k m v h

theorem dictGet_mapSet_self (l : MolMap) (k : String) (v : ℤ)
    (hmem : dictMem l k = true) :
    dictGet (l.map (fun p => if p.1 == k then (k, v) else p)) k = some v := by
  induction l with
  | nil => simp [dictMem] at hmem
  | cons p t ih =>
    by_cases hp : p.1 = k
    · simp only [List.map_cons, if_pos (show (p.1 == k) = true by simp [hp])]
      rw [dictGet_cons]
      simp
    · have hbf : (p.1 == k) = false := beq_eq_false_iff_ne.mpr hp
      simp only [List.map_cons, if_neg (show ¬(p.1 == k) = true by simp [hp])]
      rw [dictGet_cons, if_neg (by simp [hp])]
      apply ih
      simpa [dictMem, hbf] using hmem

theorem dictGet_dictSet_self (l : MolMap) (k : String) (v : ℤ) :
    dictGet (dictSet l k v) k = some v := by
  unfold dictSet
  split
  · next hmem => exact dictGet_mapSet_self l k v hmem
  · next hmem =>
    have hb : dictMem l k = false := by simpa using hmem
    have hnone : dictGet l k = none := dictGet_eq_none_of_not_mem l k hb
    simp only [dictGet, List.find?_append] at hnone ⊢
    cases hf : List.find? (fun p => p.1 == k) l with
    | some x => rw [hf] at hnone; simp at hnone
    | none => simp [List.find?]

theorem dictGet_map_neg (l : MolMap) (m : String) :
    dictGet (l.map (fun p => (p.1, -p.2))) m = (dictGet l m).map (fun z => -z) := by
  induction l with
  | nil => rfl
  | cons p t ih =>
    simp only [List.map_cons]
    rw [dictGet_cons, dictGet_cons]
    cases h : p.1 == m <;> simp [h, ih]

/-! ### Vector (`List ℤ`) lemmas -/

theorem length_setIdx (l : List ℤ) (i : Nat) (v : ℤ) :
    (setIdx l i v).length = l.length := by
  induction l generalizing i with
  | nil => rfl
  | cons x t ih =>
    cases i with
    | zero => rfl
    | succ n => simp [setIdx, ih]

theorem getIdx_cons_succ (x : ℤ) (t : List ℤ) (j : Nat) :
    getIdx (x :: t) (j + 1) = getIdx t j := rfl

theorem getIdx_setIdx (l : List ℤ) (i : Nat) (v : ℤ) (j : Nat)
    (h : i < l.length) :
    getIdx (setIdx l i v) j = if i = j then v else getIdx l j := by
  induction l generalizing i j with
  | nil => simp at h
  | cons x t ih =>
    cases i with
    | zero =>
      cases j with
      | zero => rfl
      | succ j => simp [setIdx, getIdx_cons_succ]
    | succ i =>
      cases j with
      | zero => simp [setIdx, getIdx]
      | succ j =>
        simp only [setIdx, getIdx_cons_succ]
        rw [ih i j (by simpa using h)]
        simp [Nat.succ_inj]

theorem length_bumpIdx (l : List ℤ) (i : Nat) (d : ℤ) :
    (bumpIdx l i d).length = l.length := length_setIdx l i _

theorem getIdx_bumpIdx (l : List ℤ) (i : Nat) (d : ℤ) (j : Nat)
    (h : i < l.length) :
    getIdx (bumpIdx l i d) j = getIdx l j + if i = j then d else 0 := by
  unfold bumpIdx
  rw [getIdx_setIdx l i _ j h]
  split
  · next hij => subst hij; ring
  · ring

theorem dictGetD_of_get (l : MolMap) (k : String) (z d : ℤ)
    (h : dictGet l k = some z) : dictGetD l k d = z := by
  unfold dictGetD
  rw [h]
  rfl

/-! ### Molecule-delta assembly lemmas (towards claim C1) -/

theorem atpFold_get (acc : MolMap) (p : String × ℤ) (a b : ℤ)
    (hA : dictGet acc "ATP" = some a) (hB : dictGet acc "ADP" = some b) :
    dictGet (atpFold acc p) "ATP" = some (a - 2 * p.2)
    ∧ dictGet (atpFold acc p) "ADP" = some (b + 2 * p.2)
    ∧ ∀ m, m ≠ "ATP" → m ≠ "ADP" → dictGet (atpFold acc p) m = dictGet acc m := by
  unfold atpFold
  refine ⟨?_, ?_, ?_⟩
  · rw [dictGet_dictSet_ne _ _ _ _ (by decide), dictGet_dictSet_self,
      dictGetD_of_get acc "ATP" a 0 hA]
  · rw [dictGet_dictSet_self, dictGetD_of_get acc "ADP" b 0 hB]
  · intro m hm1 hm2
    rw [dictGet_dictSet_ne _ _ _ _ (Ne.symm hm2),
      dictGet_dictSet_ne _ _ _ _ (Ne.symm hm1)]

theorem atpFoldl_get (rest : List (String × ℤ)) : ∀ (acc : MolMap) (a b : ℤ),
    dictGet acc "ATP" = some a → dictGet acc "ADP" = some b →
    dictGet (rest.foldl atpFold acc) "ATP" = some (a - 2 * (rest.map Prod.snd).sum)
    ∧ dictGet (rest.foldl atpFold acc) "ADP" = some (b + 2 * (rest.map Prod.snd).sum)
    ∧ ∀ m, m ≠ "ATP" → m ≠ "ADP" →
        dictGet (rest.foldl atpFold acc) m = dictGet acc m := by
  induction rest with
  | nil =>
    intro acc a b hA hB
    refine ⟨by simpa using hA, by simpa using hB, fun m _ _ => rfl⟩
  | cons p t ih =>
    intro acc a b hA hB
    obtain ⟨h1, h2, h3⟩ := atpFold_get acc p a b hA hB
    obtain ⟨i1, i2, i3⟩ := ih (atpFold acc p) _ _ h1 h2
    refine ⟨?_, ?_, ?_⟩
    · rw [List.foldl_cons, i1]
      congr 1
      simp only [List.map_cons, List.sum_cons]
      ring
    · rw [List.foldl_cons, i2]
      congr 1
      simp only [List.map_cons, List.sum_cons]
      ring
    · intro m hm1 hm2
      rw [List.foldl_cons, i3 m hm1 hm2, h3 m hm1 hm2]

theorem assembleMolecules_spec (monomers : MolMap) :
    dictGet (assembleMolecules monomers) "ATP"
      = some (-(2 * (monomers.map Prod.snd).sum))
    ∧ dictGet (assembleMolecules monomers) "ADP"
      = some (2 * (monomers.map Prod.snd).sum)
    ∧ ∀ m z, m ≠ "ATP" → m ≠ "ADP" → dictGet monomers m = some z →
        dictGet (assembleMolecules monomers) m = some (-z) := by
  unfold assembleMolecules
  have hA : dictGet
      (dictSet (dictSet (monomers.map (fun p => (p.1, -p.2))) "ATP" 0) "ADP" 0)
      "ATP" = some 0 := by
    rw [dictGet_dictSet_ne _ _ _ _ (by decide), dictGet_dictSet_self]
  have hB : dictGet
      (dictSet (dictSet (monomers.map (fun p => (p.1, -p.2))) "ATP" 0) "ADP" 0)
      "ADP" = some 0 := dictGet_dictSet_self _ _ _
  obtain ⟨i1, i2, i3⟩ := atpFoldl_get monomers _ 0 0 hA hB
  refine ⟨by rw [i1]; congr 1; ring, by rw [i2]; congr 1; ring, ?_⟩
  intro m z hm1 hm2 hz
  rw [i3 m hm1 hm2, dictGet_dictSet_ne _ _ _ _ (Ne.symm hm2),
    dictGet_dictSet_ne _ _ _ _ (Ne.symm hm1), dictGet_map_neg, hz]
  rfl

/-! ### Concrete instances used by witnesses and counterexample evaluations -/

/-- Single-transcript configuration: a four-alanine sequence, elongation
rate 1, occlusion window 10. -/
def exCfg1 : Config :=
  { transcript_order := [("o0", "g0")]
    transcript_affinities := [(("o0", "g0"), 1)]
    sequences := fun _ => ['A', 'A', 'A', 'A']
    symbol_to_monomer := fun _ => "Ala"
    terminator_of := fun _ => 4
    products_of := fun k => [k.2]
    elongation_rate := 1
    polymerase_occlusion := 10
    monomer_ids := ["Ala"] }

/-- Snapshot with one ribosome already polymerizing at position 0 on the
single transcript, ample monomers. -/
def exSnap1 : Snapshot :=
  { ribosomes := [{ id := 1, state := .polymerizing, position := 0,
                    template := ("o0", "g0"), template_index := 0, terminator := 0 }]
    molecules := [("Ala", 10)]
    transcripts := [("o0", 1)]
    proteins := [("Ribosome", 0)] }

/-- Sampler oracle returning no binding events. -/
def exOracleNone : Nat → List (ℚ × Nat) := fun _ => []

/-- Two-transcript configuration: elongation rate 1 and occlusion window 1,
so a ribosome created on iteration 0 unoccludes on iteration 1. -/
def exCfg2 : Config :=
  { transcript_order := [("o0", "g0"), ("o1", "g1")]
    transcript_affinities := [(("o0", "g0"), 1), (("o1", "g1"), 1)]
    sequences := fun _ => ['A', 'A', 'A', 'A']
    symbol_to_monomer := fun _ => "Ala"
    terminator_of := fun _ => 4
    products_of := fun k => [k.2]
    elongation_rate := 1
    polymerase_occlusion := 1
    monomer_ids := ["Ala"] }

/-- Snapshot with no live ribosomes, one gene copy of each transcript, one
unbound ribosome, ample monomers. -/
def exSnap2 : Snapshot :=
  { ribosomes := []
    molecules := [("Ala", 10)]
    transcripts := [("o0", 1), ("o1", 1)]
    proteins := [("Ribosome", 1)] }

/-- Sampler oracle: on loop iteration 0 a single binding event on
transcript index 1 (within the §4.2 contract: the substrate vector at that
point has one free copy of transcript 1 and one unbound ribosome). -/
def exOracle2 : Nat → List (ℚ × Nat) := fun k => if k = 0 then [((0 : ℚ), 1)] else []

/-! ### Claim C1 -/

/-- C1: for every call to `next_update`, the emitted molecule delta maps
each monomer identifier (the ATP/ADP cofactor keys, which the source
overwrites, excepted) to the negative of the amount of that monomer
consumed by elongation during the call, the ATP delta equals -2 times the
total number of monomers incorporated, and the ADP delta equals +2 times
that same total, exactly. -/
theorem C1_molecule_delta (cfg : Config) (oracle : Nat → List (ℚ × Nat))
    (ps : PState) (T : ℚ) (snap : Snapshot) :
    let consumed := (loopN cfg oracle T (loopFuel cfg T) (initLoop cfg ps snap)).elong.monomers
    let delta := (next_update cfg oracle ps T snap).2.molecules
    dictGet delta "ATP" = some (-(2 * (consumed.map Prod.snd).sum))
    ∧ dictGet delta "ADP" = some (2 * (consumed.map Prod.snd).sum)
    ∧ ∀ m z, m ≠ "ATP" → m ≠ "ADP" → dictGet consumed m = some z →
        dictGet delta m = some (-z) := by
  intro consumed delta
  exact assembleMolecules_spec consumed

/-- Witness for C1: in the single-transcript scenario over one unit of
time, one alanine is consumed, and the emitted delta records Ala -1,
ATP -2, ADP +2. -/
theorem C1_molecule_delta_witness :
    dictGet ((loopN exCfg1 exOracleNone 1 (loopFuel exCfg1 1)
        (initLoop exCfg1 ⟨0, 0⟩ exSnap1)).elong.monomers) "Ala" = some 1
    ∧ dictGet ((next_update exCfg1 exOracleNone ⟨0, 0⟩ 1 exSnap1).2.molecules) "Ala"
        = some (-1)
    ∧ dictGet ((next_update exCfg1 exOracleNone ⟨0, 0⟩ 1 exSnap1).2.molecules) "ATP"
        = some (-(2 * ((((loopN exCfg1 exOracleNone 1 (loopFuel exCfg1 1)
            (initLoop exCfg1 ⟨0, 0⟩ exSnap1)).elong.monomers).map Prod.snd).sum))) := by
  refine ⟨by with_unfolding_all rfl, ?_, ?_⟩
  · exact (C1_molecule_delta exCfg1 exOracleNone ⟨0, 0⟩ 1 exSnap1).2.2 "Ala" 1
      (by decide) (by decide) (by with_unfolding_all rfl)
  · exact (C1_molecule_delta exCfg1 exOracleNone ⟨0, 0⟩ 1 exSnap1).1

/-! ### Claim C7 -/

/-- C7: calling `next_update` with duration 0 runs no loop iteration (the
loop state is exactly the entry state, so no binding event is applied and
no id is issued), consumes no monomer (the molecule delta holds only the
zero ATP and ADP entries), and changes no ribosome population (empty add
and delete lists, unbound-ribosome delta zero). -/
theorem C7_zero_duration (cfg : Config) (oracle : Nat → List (ℚ × Nat))
    (ps : PState) (snap : Snapshot) :
    loopN cfg oracle 0 (loopFuel cfg 0) (initLoop cfg ps snap) = initLoop cfg ps snap
    ∧ (next_update cfg oracle ps 0 snap).2.ribosomes.add = []
    ∧ (next_update cfg oracle ps 0 snap).2.ribosomes.delete = []
    ∧ (next_update cfg oracle ps 0 snap).2.molecules = [("ATP", 0), ("ADP", 0)]
    ∧ dictGet (next_update cfg oracle ps 0 snap).2.proteins UNBOUND_RIBOSOME_KEY
        = some 0 := by
  have hfloor : Rat.floor (0 : ℚ) = 0 := by
    rw [show Rat.floor (0 : ℚ) = ⌊(0 : ℚ)⌋ from rfl]
    exact Int.floor_zero
  have hfuel : loopFuel cfg 0 = 1 := by
    unfold loopFuel ceilQ
    rw [zero_mul, neg_zero, hfloor]
    rfl
  have hstop : loopN cfg oracle 0 (loopFuel cfg 0) (initLoop cfg ps snap)
      = initLoop cfg ps snap := by
    rw [hfuel]
    show (if (initLoop cfg ps snap).time < 0 then
      loopN cfg oracle 0 0 (loopStep cfg oracle 0 (initLoop cfg ps snap))
      else initLoop cfg ps snap) = initLoop cfg ps snap
    rw [if_neg]
    show ¬ (0 : ℚ) < 0
    simp
  refine ⟨hstop, ?_, ?_, ?_, ?_⟩
  · show ((loopN cfg oracle 0 (loopFuel cfg 0) (initLoop cfg ps snap)).ribosomes.filter
      (fun r => !((loopN cfg oracle 0 (loopFuel cfg 0)
        (initLoop cfg ps snap)).origView.contains r.id))) = []
    rw [hstop]
    apply List.filter_eq_nil_iff.mpr
    intro r hr
    simp only [Bool.not_eq_true', Bool.not_eq_false]
    exact List.elem_iff.mpr (List.mem_map_of_mem Ribosome.id hr)
  · show ((loopN cfg oracle 0 (loopFuel cfg 0) (initLoop cfg ps snap)).origView.filter
      (fun i => !(((loopN cfg oracle 0 (loopFuel cfg 0)
        (initLoop cfg ps snap)).ribosomes.map Ribosome.id).contains i))) = []
    rw [hstop]
    apply List.filter_eq_nil_iff.mpr
    intro i hi
    simp only [Bool.not_eq_true', Bool.not_eq_false]
    exact List.elem_iff.mpr hi
  · show assembleMolecules (loopN cfg oracle 0 (loopFuel cfg 0)
      (initLoop cfg ps snap)).elong.monomers = [("ATP", 0), ("ADP", 0)]
    rw [hstop]
    rfl
  · show dictGet (assembleProteins ((loopN cfg oracle 0 (loopFuel cfg 0)
      (initLoop cfg ps snap)).unbound - (initLoop cfg ps snap).unbound)
      (loopN cfg oracle 0 (loopFuel cfg 0)
        (initLoop cfg ps snap)).elong.complete_polymers) UNBOUND_RIBOSOME_KEY
      = some 0
    rw [hstop]
    show dictGet [(UNBOUND_RIBOSOME_KEY,
      (initLoop cfg ps snap).unbound - (initLoop cfg ps snap).unbound)]
      UNBOUND_RIBOSOME_KEY = some 0
    rw [dictGet_cons]
    simp

/-! ### Claim C2 (code bug evaluation) -/

/-- C2 (code-bug evaluation): the free/bound conservation claim fails on
the code.  In the two-transcript scenario, the sampler binds transcript
index 1 on iteration 0; the created ribosome keeps the default
template_index 0, so when it unoccludes on iteration 1 the sweep
decrements `bound_transcripts[0]` (translation.py:528) instead of index 1.
At the iteration-2 boundary the bound count of transcript 0 is -1
(negative) while its gene count is 1, and the free count used for the
substrate vector is 2, exceeding the total. -/
theorem C2_bound_count_negative_eval :
    getIdx ((loopN exCfg2 exOracle2 3 2 (initLoop exCfg2 ⟨0, 0⟩ exSnap2)).bound) 0 = -1
    ∧ getIdx ((initLoop exCfg2 ⟨0, 0⟩ exSnap2).gene) 0 = 1
    ∧ getIdx (freeCounts (loopN exCfg2 exOracle2 3 2 (initLoop exCfg2 ⟨0, 0⟩ exSnap2))) 0 = 2
    ∧ getIdx ((loopN exCfg2 exOracle2 3 2 (initLoop exCfg2 ⟨0, 0⟩ exSnap2)).bound) 1 = 1 := by
  refine ⟨?_, ?_, ?_, ?_⟩ <;> with_unfolding_all rfl

/-! ### Claim C3 (code bug evaluation) -/

/-- C3 (code-bug evaluation): the ribosome instantiated for the sampled
binding event on transcript index 1 carries the assigned transcript key as
template and position 0, and a fresh id, but its template_index is the
Polymerase default 0 — not the transcript's index 1 in the canonical
order — because the constructor call at translation.py:514-517 omits it
(the doctest at translation.py:276 records exactly this). -/
theorem C3_template_index_not_assigned_eval :
    (loopN exCfg2 exOracle2 3 1 (initLoop exCfg2 ⟨0, 0⟩ exSnap2)).ribosomes
      = [{ id := 1, state := .occluding, position := 0, template := ("o1", "g1"),
           template_index := 0, terminator := 0 }]
    ∧ exCfg2.transcript_order.getD 1 ("", "") = ("o1", "g1") := by
  refine ⟨?_, ?_⟩ <;> with_unfolding_all rfl

/-! ### Claim C8 (code bug evaluation) -/

/-- Configuration that claim C8 says construction must reject: a negative
transcript affinity, a transcript key present in the affinity map but
absent from the sequence and template maps, and a zero elongation rate. -/
def badParams : InitParams :=
  { sequences := []
    template_terminators := []
    transcript_affinities := [(("oA", "eA"), -1)]
    elongation_rate := 0
    polymerase_occlusion := 10
    monomer_ids := ["Ala"] }

/-- C8 (code-bug evaluation): `Translation.__init__` performs no
validation (translation.py:279-341 contains no check of affinities, key
consistency, or the elongation rate), so construction on `badParams`
completes normally, retaining the negative affinity and the zero
elongation rate. -/
theorem C8_construction_accepts_invalid_eval :
    translationInit badParams =
      { transcript_order := [("oA", "eA")]
        operons := [("oA", ["eA"])]
        operon_order := ["oA"]
        transcript_count := 1
        affinity_vector := [-1]
        molecule_ids := ["Ala", "ATP", "ADP"]
        elongation_rate := 0
        polymerase_occlusion := 10
        elongation := 0
        ribosome_id := 0 } := by
  with_unfolding_all rfl

/-! ### Loop termination lemmas (towards claim C5) -/

theorem loopN_of_not_lt (cfg : Config) (oracle : Nat → List (ℚ × Nat)) (T : ℚ)
    (n : Nat) (s : LoopState) (h : ¬ s.time < T) :
    loopN cfg oracle T n s = s := by
  cases n with
  | zero => rfl
  | succ m => simp [loopN, h]

theorem loopStep_time (cfg : Config) (oracle : Nat → List (ℚ × Nat)) (T : ℚ)
    (s : LoopState) :
    (loopStep cfg oracle T s).time
      = s.time + min (1 / cfg.elongation_rate) (T - s.time) := rfl

theorem loopStep_iter (cfg : Config) (oracle : Nat → List (ℚ × Nat)) (T : ℚ)
    (s : LoopState) :
    (loopStep cfg oracle T s).iter = s.iter + 1 := rfl

theorem ceilQ_eq_ceil (q : ℚ) : ceilQ q = ⌈q⌉ := by
  unfold ceilQ
  rw [show Rat.floor (-q) = ⌊-q⌋ from rfl, Int.floor_neg]
  ring

theorem loopN_reaches (cfg : Config) (oracle : Nat → List (ℚ × Nat)) (T : ℚ)
    (hr : 0 < cfg.elongation_rate) :
    ∀ (n : Nat) (s : LoopState), s.time ≤ T →
      (T - s.time) * cfg.elongation_rate ≤ (n : ℚ) →
      (loopN cfg oracle T (n + 1) s).time = T
      ∧ ((loopN cfg oracle T (n + 1) s).iter : ℚ)
          ≤ (s.iter : ℚ) + (T - s.time) * cfg.elongation_rate + 1 := by
  intro n
  induction n with
  | zero =>
    intro s hle hbound
    by_cases h : s.time < T
    · exfalso
      have hpos : 0 < (T - s.time) * cfg.elongation_rate :=
        mul_pos (by linarith) hr
      push_cast at hbound
      linarith
    · rw [loopN_of_not_lt cfg oracle T 1 s h]
      have hT : s.time = T := le_antisymm hle (not_lt.mp h)
      refine ⟨hT, ?_⟩
      have : (T - s.time) * cfg.elongation_rate = 0 := by rw [hT]; ring
      linarith
  | succ m ih =>
    intro s hle hbound
    by_cases h : s.time < T
    · have hunfold : loopN cfg oracle T (m + 1 + 1) s
          = loopN cfg oracle T (m + 1) (loopStep cfg oracle T s) := by
        show (if s.time < T then loopN cfg oracle T (m + 1)
          (loopStep cfg oracle T s) else s) = _
        rw [if_pos h]
      rw [hunfold]
      have hdpos : 0 < 1 / cfg.elongation_rate := by positivity
      have hdr : (1 / cfg.elongation_rate) * cfg.elongation_rate = 1 := by
        field_simp
      by_cases hcase : T - s.time ≤ 1 / cfg.elongation_rate
      · have hmin : min (1 / cfg.elongation_rate) (T - s.time) = T - s.time :=
          min_eq_right hcase
        have htime : (loopStep cfg oracle T s).time = T := by
          rw [loopStep_time, hmin]; ring
        rw [loopN_of_not_lt cfg oracle T (m + 1) _ (by rw [htime]; exact lt_irrefl T)]
        refine ⟨htime, ?_⟩
        rw [loopStep_iter]
        have hnn : 0 ≤ (T - s.time) * cfg.elongation_rate :=
          mul_nonneg (by linarith) hr.le
        push_cast
        linarith
      · push_neg at hcase
        have hmin : min (1 / cfg.elongation_rate) (T - s.time)
            = 1 / cfg.elongation_rate := min_eq_left hcase.le
        have h1 : (loopStep cfg oracle T s).time
            = s.time + 1 / cfg.elongation_rate := by rw [loopStep_time, hmin]
        have hle2 : (loopStep cfg oracle T s).time ≤ T := by
          rw [h1]; linarith
        have hbound2 : (T - (loopStep cfg oracle T s).time) * cfg.elongation_rate
            ≤ (m : ℚ) := by
          rw [h1]
          have hexp : (T - (s.time + 1 / cfg.elongation_rate)) * cfg.elongation_rate
              = (T - s.time) * cfg.elongation_rate
                - (1 / cfg.elongation_rate) * cfg.elongation_rate := by ring
          rw [hexp, hdr]
          push_cast at hbound
          linarith
        obtain ⟨it, ii⟩ := ih (loopStep cfg oracle T s) hle2 hbound2
        refine ⟨it, ?_⟩
        rw [loopStep_iter] at ii
        have hexp : (T - (loopStep cfg oracle T s).time) * cfg.elongation_rate
            = (T - s.time) * cfg.elongation_rate - 1 := by
          rw [h1]
          have : (T - (s.time + 1 / cfg.elongation_rate)) * cfg.elongation_rate
              = (T - s.time) * cfg.elongation_rate
                - (1 / cfg.elongation_rate) * cfg.elongation_rate := by ring
          rw [this, hdr]
        rw [hexp] at ii
        push_cast at ii ⊢
        linarith
    · rw [loopN_of_not_lt cfg oracle T (m + 1 + 1) s h]
      have hT : s.time = T := le_antisymm hle (not_lt.mp h)
      refine ⟨hT, ?_⟩
      have : (T - s.time) * cfg.elongation_rate = 0 := by rw [hT]; ring
      linarith

/-! ### Claim C5 -/

/-- C5: for a requested duration T > 0 and elongation_rate > 0, the
simulation loop reaches time = T within fuel `T * elongation_rate + 1`,
performing at most `T * elongation_rate + 1` iterations; each iteration
advances the elapsed time by `interval = min(1/elongation_rate, T - t)`;
when the interval equals the full grain `1/elongation_rate` the
elongation stepper runs and its termination count is added to the
unbound-ribosome pool, and otherwise only the partial-step offset is
stored — unbound pool, ribosomes and consumed monomers unchanged, so no
terminations occur. -/
theorem C5_loop_termination (cfg : Config) (oracle : Nat → List (ℚ × Nat))
    (ps : PState) (T : ℚ) (snap : Snapshot)
    (hr : 0 < cfg.elongation_rate) (hT : 0 < T) :
    let sF := loopN cfg oracle T (loopFuel cfg T) (initLoop cfg ps snap)
    sF.time = T
    ∧ (sF.iter : ℚ) ≤ T * cfg.elongation_rate + 1
    ∧ (∀ s : LoopState, (loopStep cfg oracle T s).time
        = s.time + min (1 / cfg.elongation_rate) (T - s.time))
    ∧ (∀ s : LoopState,
        min (1 / cfg.elongation_rate) (T - s.time) = 1 / cfg.elongation_rate →
        elongPhase cfg T s =
          { s with
            elong := (Elongation.step cfg s.elong s.pool s.ribosomes).1
            pool := (Elongation.step cfg s.elong s.pool s.ribosomes).2.1
            ribosomes := (Elongation.step cfg s.elong s.pool s.ribosomes).2.2.1
            unbound := s.unbound
              + (Elongation.step cfg s.elong s.pool s.ribosomes).2.2.2 })
    ∧ (∀ s : LoopState,
        min (1 / cfg.elongation_rate) (T - s.time) ≠ 1 / cfg.elongation_rate →
        elongPhase cfg T s = { s with
          elong := s.elong.storeFractionalStep cfg
            (min (1 / cfg.elongation_rate) (T - s.time)) }
        ∧ (elongPhase cfg T s).unbound = s.unbound
        ∧ (elongPhase cfg T s).ribosomes = s.ribosomes
        ∧ (elongPhase cfg T s).elong.monomers = s.elong.monomers) := by
  intro sF
  have hq : 0 ≤ T * cfg.elongation_rate := mul_nonneg hT.le hr.le
  have hceil : T * cfg.elongation_rate
      ≤ (((ceilQ (T * cfg.elongation_rate)).toNat : Nat) : ℚ) := by
    rw [ceilQ_eq_ceil]
    have hA : T * cfg.elongation_rate ≤ (⌈T * cfg.elongation_rate⌉ : ℚ) :=
      Int.le_ceil _
    have hB : ((⌈T * cfg.elongation_rate⌉ : ℤ) : ℚ)
        ≤ ((⌈T * cfg.elongation_rate⌉.toNat : Nat) : ℚ) := by
      exact_mod_cast Int.self_le_toNat _
    linarith
  have h0 : (initLoop cfg ps snap).time = 0 := rfl
  have hiter0 : (initLoop cfg ps snap).iter = 0 := rfl
  obtain ⟨ht, hi⟩ := loopN_reaches cfg oracle T hr
    ((ceilQ (T * cfg.elongation_rate)).toNat) (initLoop cfg ps snap)
    (by rw [h0]; exact hT.le) (by rw [h0]; simpa using hceil)
  refine ⟨ht, ?_, fun s => loopStep_time cfg oracle T s, ?_, ?_⟩
  · show ((loopN cfg oracle T ((ceilQ (T * cfg.elongation_rate)).toNat + 1)
      (initLoop cfg ps snap)).iter : ℚ) ≤ T * cfg.elongation_rate + 1
    rw [h0, hiter0] at hi
    push_cast at hi ⊢
    linarith
  · intro s hmin
    show (if min (1 / cfg.elongation_rate) (T - s.time) = 1 / cfg.elongation_rate
      then _ else _) = _
    rw [if_pos hmin]
  · intro s hmin
    have h1 : elongPhase cfg T s = { s with
        elong := s.elong.storeFractionalStep cfg
          (min (1 / cfg.elongation_rate) (T - s.time)) } := by
      show (if min (1 / cfg.elongation_rate) (T - s.time) = 1 / cfg.elongation_rate
        then _ else _) = _
      rw [if_neg hmin]
    exact ⟨h1, by rw [h1], by rw [h1], by rw [h1]; rfl⟩

/-- Witness for C5: with elongation rate 1 and duration 3/2, the loop of
the single-transcript scenario reaches time 3/2 and runs 2 iterations,
within the bound 3/2 + 1. -/
theorem C5_loop_termination_witness :
    (0 : ℚ) < exCfg1.elongation_rate ∧ (0 : ℚ) < 3 / 2
    ∧ (loopN exCfg1 exOracleNone (3 / 2) (loopFuel exCfg1 (3 / 2))
        (initLoop exCfg1 ⟨0, 0⟩ exSnap1)).time = 3 / 2
    ∧ ((loopN exCfg1 exOracleNone (3 / 2) (loopFuel exCfg1 (3 / 2))
        (initLoop exCfg1 ⟨0, 0⟩ exSnap1)).iter : ℚ)
        ≤ (3 / 2) * exCfg1.elongation_rate + 1 := by
  refine ⟨by decide, by norm_num, ?_, ?_⟩
  · exact (C5_loop_termination exCfg1 exOracleNone ⟨0, 0⟩ (3 / 2) exSnap1
      (by decide) (by norm_num)).1
  · exact (C5_loop_termination exCfg1 exOracleNone ⟨0, 0⟩ (3 / 2) exSnap1
      (by decide) (by norm_num)).2.1

/-! ### Elongation-offset lemmas (towards claim C10) -/

theorem applyEvent_elong (cfg : Config) (s : LoopState) (ev : ℚ × Nat) :
    (applyEvent cfg s ev).elong = s.elong := rfl

theorem eventsFold_elong (cfg : Config) (l : List (ℚ × Nat)) :
    ∀ s : LoopState, (l.foldl (applyEvent cfg) s).elong = s.elong := by
  induction l with
  | nil => intro s; rfl
  | cons e t ih => intro s; rw [List.foldl_cons, ih]; rfl

theorem eventsPhase_elong (cfg : Config) (oracle : Nat → List (ℚ × Nat))
    (s : LoopState) : (eventsPhase cfg oracle s).elong = s.elong :=
  eventsFold_elong cfg (oracle s.iter) s

theorem sweepPhase_elong (cfg : Config) (s : LoopState) :
    (sweepPhase cfg s).elong = s.elong := rfl

theorem elongPhase_elongation_ge (cfg : Config) (T : ℚ) (s : LoopState)
    (h : s.time < T) (hr : 0 < cfg.elongation_rate) :
    s.elong.elongation ≤ (elongPhase cfg T s).elong.elongation := by
  have hminpos : 0 < min (1 / cfg.elongation_rate) (T - s.time) :=
    lt_min (by positivity) (by linarith)
  by_cases hc : min (1 / cfg.elongation_rate) (T - s.time) = 1 / cfg.elongation_rate
  · have h1 : elongPhase cfg T s = { s with
        elong := (Elongation.step cfg s.elong s.pool s.ribosomes).1
        pool := (Elongation.step cfg s.elong s.pool s.ribosomes).2.1
        ribosomes := (Elongation.step cfg s.elong s.pool s.ribosomes).2.2.1
        unbound := s.unbound
          + (Elongation.step cfg s.elong s.pool s.ribosomes).2.2.2 } := by
      show (if min (1 / cfg.elongation_rate) (T - s.time) = 1 / cfg.elongation_rate
        then _ else _) = _
      rw [if_pos hc]
    rw [h1]
    show s.elong.elongation ≤ s.elong.elongation + 1
    linarith
  · have h1 : elongPhase cfg T s = { s with
        elong := s.elong.storeFractionalStep cfg
          (min (1 / cfg.elongation_rate) (T - s.time)) } := by
      show (if min (1 / cfg.elongation_rate) (T - s.time) = 1 / cfg.elongation_rate
        then _ else _) = _
      rw [if_neg hc]
    rw [h1]
    show s.elong.elongation ≤ s.elong.elongation
      + min (1 / cfg.elongation_rate) (T - s.time) * cfg.elongation_rate
    have : 0 ≤ min (1 / cfg.elongation_rate) (T - s.time) * cfg.elongation_rate :=
      mul_nonneg hminpos.le hr.le
    linarith

theorem loopStep_elongation_ge (cfg : Config) (oracle : Nat → List (ℚ × Nat))
    (T : ℚ) (s : LoopState) (h : s.time < T) (hr : 0 < cfg.elongation_rate) :
    s.elong.elongation ≤ (loopStep cfg oracle T s).elong.elongation := by
  have h1 : (loopStep cfg oracle T s).elong
      = (elongPhase cfg T s).elong := by
    show (sweepPhase cfg (eventsPhase cfg oracle
      (if min (1 / cfg.elongation_rate) (T - s.time) = 1 / cfg.elongation_rate
        then { elongPhase cfg T s with rebound := true }
        else elongPhase cfg T s))).elong = (elongPhase cfg T s).elong
    rw [sweepPhase_elong, eventsPhase_elong]
    split <;> rfl
  rw [h1]
  exact elongPhase_elongation_ge cfg T s h hr

theorem loopN_elongation_nonneg (cfg : Config) (oracle : Nat → List (ℚ × Nat))
    (T : ℚ) (hr : 0 < cfg.elongation_rate) :
    ∀ (n : Nat) (s : LoopState), 0 ≤ s.elong.elongation →
      0 ≤ (loopN cfg oracle T n s).elong.elongation := by
  intro n
  induction n with
  | zero => intro s h; exact h
  | succ m ih =>
    intro s h
    by_cases hg : s.time < T
    · have hunfold : loopN cfg oracle T (m + 1) s
          = loopN cfg oracle T m (loopStep cfg oracle T s) := by
        show (if s.time < T then _ else s) = _
        rw [if_pos hg]
      rw [hunfold]
      exact ih _ (le_trans h (loopStep_elongation_ge cfg oracle T s hg hr))
    · rw [loopN_of_not_lt cfg oracle T (m + 1) s hg]
      exact h

/-! ### Claim C10 -/

/-- C10: after every call (with a non-negative carried offset, as every
call produces, and a positive elongation rate), the stored process field
`self.elongation` is exactly the python `int()`-truncated fractional part
of the elongation stepper's accumulated progress, lies in [0, 1), and is
the starting offset of the Elongation instance the next call constructs
(translation.py:469-474 and 533-534). -/
theorem C10_elongation_offset (cfg : Config) (oracle : Nat → List (ℚ × Nat))
    (ps : PState) (T : ℚ) (snap : Snapshot)
    (h0 : 0 ≤ ps.elongation) (hr : 0 < cfg.elongation_rate) :
    let sF := loopN cfg oracle T (loopFuel cfg T) (initLoop cfg ps snap)
    let ps2 := (next_update cfg oracle ps T snap).1
    ps2.elongation = sF.elong.elongation - pytrunc sF.elong.elongation
    ∧ 0 ≤ ps2.elongation ∧ ps2.elongation < 1
    ∧ ∀ snap2 : Snapshot,
        (initLoop cfg ps2 snap2).elong.elongation = ps2.elongation := by
  intro sF ps2
  have hq : 0 ≤ sF.elong.elongation :=
    loopN_elongation_nonneg cfg oracle T hr (loopFuel cfg T)
      (initLoop cfg ps snap) h0
  have htr : pytrunc sF.elong.elongation = ⌊sF.elong.elongation⌋ := by
    unfold pytrunc
    rw [if_pos hq]
    rfl
  have hdef : ps2.elongation
      = sF.elong.elongation - pytrunc sF.elong.elongation := rfl
  have hfract : sF.elong.elongation - (⌊sF.elong.elongation⌋ : ℚ)
      = Int.fract sF.elong.elongation := rfl
  refine ⟨hdef, ?_, ?_, fun snap2 => rfl⟩
  · rw [hdef, htr, hfract]
    exact Int.fract_nonneg _
  · rw [hdef, htr, hfract]
    exact Int.fract_lt_one _

/-- Witness for C10: the single-transcript scenario over duration 3/2
(rate 1) accumulates 1.5 monomer units of progress; the stored offset is
1/2 and the next call's Elongation starts from it. -/
theorem C10_elongation_offset_witness :
    (0 : ℚ) ≤ (0 : ℚ) ∧ (0 : ℚ) < exCfg1.elongation_rate
    ∧ 0 ≤ (next_update exCfg1 exOracleNone ⟨0, 0⟩ (3 / 2) exSnap1).1.elongation
    ∧ (next_update exCfg1 exOracleNone ⟨0, 0⟩ (3 / 2) exSnap1).1.elongation < 1
    ∧ (next_update exCfg1 exOracleNone ⟨0, 0⟩ (3 / 2) exSnap1).1.elongation = 1 / 2 := by
  refine ⟨le_refl 0, by decide, ?_, ?_, by with_unfolding_all rfl⟩
  · exact (C10_elongation_offset exCfg1 exOracleNone ⟨0, 0⟩ (3 / 2) exSnap1
      (le_refl 0) (by decide)).2.1
  · exact (C10_elongation_offset exCfg1 exOracleNone ⟨0, 0⟩ (3 / 2) exSnap1
      (le_refl 0) (by decide)).2.2.1

/-! ### Occlusion sweep lemmas (towards claim C6) -/

/-- The effect of one occlusion sweep on a single ribosome: an unoccluding
ribosome stops occluding, any other passes through unchanged. -/
def sweepRib (occ : Nat) (r : Ribosome) : Ribosome :=
  if r.is_unoccluding occ then { r with state := .polymerizing } else r

/-- The decrement (1 or 0) that ribosome `r` contributes to the bound
count at index `j` during an occlusion sweep. -/
def unoccContrib (occ : Nat) (j : Nat) (r : Ribosome) : ℤ :=
  if r.is_unoccluding occ && (r.template_index == j) then 1 else 0

theorem sweepFold_ribs (occ : Nat) :
    ∀ (ribs : List Ribosome) (bound : List ℤ) (accR : List Ribosome),
      (ribs.foldl (sweepStep occ) (bound, accR)).2
        = accR ++ ribs.map (sweepRib occ) := by
  intro ribs
  induction ribs with
  | nil => intro bound accR; simp
  | cons r t ih =>
    intro bound accR
    rw [List.foldl_cons]
    by_cases hu : r.is_unoccluding occ
    · have hstep : sweepStep occ (bound, accR) r
          = (bumpIdx bound r.template_index (-1),
             accR ++ [{ r with state := .polymerizing }]) := by
        unfold sweepStep
        rw [if_pos hu]
      rw [hstep, ih]
      simp [sweepRib, hu]
    · have hstep : sweepStep occ (bound, accR) r = (bound, accR ++ [r]) := by
        unfold sweepStep
        rw [if_neg hu]
      rw [hstep, ih]
      simp [sweepRib, hu]

theorem sweepFold_bound (occ : Nat) :
    ∀ (ribs : List Ribosome) (bound : List ℤ) (accR : List Ribosome),
      (∀ r ∈ ribs, r.template_index < bound.length) →
      ∀ j, getIdx ((ribs.foldl (sweepStep occ) (bound, accR)).1) j
        = getIdx bound j - ((ribs.map (unoccContrib occ j)).sum) := by
  intro ribs
  induction ribs with
  | nil => intro bound accR h j; simp
  | cons r t ih =>
    intro bound accR h j
    rw [List.foldl_cons]
    have hridx : r.template_index < bound.length := h r (List.mem_cons_self r t)
    by_cases hu : r.is_unoccluding occ
    · have hstep : sweepStep occ (bound, accR) r
          = (bumpIdx bound r.template_index (-1),
             accR ++ [{ r with state := .polymerizing }]) := by
        unfold sweepStep
        rw [if_pos hu]
      rw [hstep]
      have hlen : ∀ x ∈ t, x.template_index
          < (bumpIdx bound r.template_index (-1)).length := by
        intro x hx
        rw [length_bumpIdx]
        exact h x (List.mem_cons_of_mem r hx)
      rw [ih _ _ hlen j, getIdx_bumpIdx bound r.template_index (-1) j hridx]
      have hcontrib : unoccContrib occ j r
          = if r.template_index = j then 1 else 0 := by
        unfold unoccContrib
        by_cases hj : r.template_index = j
        · rw [if_pos hj]
          rw [if_pos (by simp [hu, hj])]
        · rw [if_neg hj]
          rw [if_neg (by simp [hj])]
      rw [List.map_cons, List.sum_cons, hcontrib]
      by_cases hj : r.template_index = j
      · rw [if_pos hj, if_pos hj]; ring
      · rw [if_neg hj, if_neg hj]; ring
    · have hstep : sweepStep occ (bound, accR) r = (bound, accR ++ [r]) := by
        unfold sweepStep
        rw [if_neg hu]
      rw [hstep]
      have hlen : ∀ x ∈ t, x.template_index < bound.length := fun x hx =>
        h x (List.mem_cons_of_mem r hx)
      rw [ih _ _ hlen j]
      have hcontrib : unoccContrib occ j r = 0 := by
        unfold unoccContrib
        rw [if_neg (by simp [hu])]
      rw [List.map_cons, List.sum_cons, hcontrib]
      ring

/-- Each live ribosome surviving a full-grain elongation pass descends
from an input ribosome with the same id, same state and same
template_index, and a position that did not decrease. -/
theorem advRibFold_mem (cfg : Config) :
    ∀ (ribs : List Ribosome) (acc : StepAcc),
      ∀ r2 ∈ (ribs.foldl (advanceRibosome cfg) acc).ribs,
        r2 ∈ acc.ribs ∨ ∃ r1 ∈ ribs, r2.id = r1.id ∧ r2.state = r1.state
          ∧ r2.template_index = r1.template_index
          ∧ r2.template = r1.template ∧ r1.position ≤ r2.position := by
  intro ribs
  induction ribs with
  | nil => intro acc r2 h2; exact Or.inl h2
  | cons r t ih =>
    intro acc r2 h2
    rw [List.foldl_cons] at h2
    rcases ih (advanceRibosome cfg acc r) r2 h2 with hin | ⟨r1, h1, he⟩
    · have hsub : (advanceRibosome cfg acc r).ribs = acc.ribs
          ∨ (advanceRibosome cfg acc r).ribs = acc.ribs ++ [r]
          ∨ ∃ pos2, r.position ≤ pos2 ∧ (advanceRibosome cfg acc r).ribs
              = acc.ribs ++ [{ r with position := pos2 }] := by
        unfold advanceRibosome
        dsimp only
        split
        · split
          · split
            · split
              · exact Or.inl rfl
              · exact Or.inr (Or.inr ⟨r.position + 1, Nat.le_succ _, rfl⟩)
            · exact Or.inr (Or.inl rfl)
          · exact Or.inr (Or.inl rfl)
        · exact Or.inr (Or.inl rfl)
      rcases hsub with he1 | he1 | ⟨pos2, hpos, he1⟩ <;> rw [he1] at hin
      · exact Or.inl hin
      · rcases List.mem_append.mp hin with ha | hb
        · exact Or.inl ha
        · have heq : r2 = r := by simpa using hb
          exact Or.inr ⟨r, List.mem_cons_self r t, by rw [heq], by rw [heq],
            by rw [heq], by rw [heq], by rw [heq]⟩
      · rcases List.mem_append.mp hin with ha | hb
        · exact Or.inl ha
        · have heq : r2 = { r with position := pos2 } := by simpa using hb
          exact Or.inr ⟨r, List.mem_cons_self r t, by rw [heq], by rw [heq],
            by rw [heq], by rw [heq], by rw [heq]; exact hpos⟩
    · exact Or.inr ⟨r1, List.mem_cons_of_mem r h1, he⟩

theorem elongStep_ribs_mem (cfg : Config) (e : Elongation) (pool : MolMap)
    (ribs : List Ribosome) :
    ∀ r2 ∈ (Elongation.step cfg e pool ribs).2.2.1,
      ∃ r1 ∈ ribs, r2.id = r1.id ∧ r2.state = r1.state
        ∧ r2.template_index = r1.template_index
        ∧ r2.template = r1.template ∧ r1.position ≤ r2.position := by
  intro r2 h2
  have h2' : r2 ∈ (ribs.foldl (advanceRibosome cfg)
      { pool := pool, ribs := [], terminations := 0,
        monomers := e.monomers, complete := e.complete_polymers }).ribs := h2
  rcases advRibFold_mem cfg ribs _ r2 h2' with hin | h
  · simp at hin
  · exact h

/-! ### Claim C6 -/

/-- C6: the occlusion sweep (translation.py:525-529) never decrements a
bound count on account of a ribosome whose position is below the
occlusion window (parts 1 and 4: a below-window ribosome passes through
unchanged and contributes 0 to every decrement); the decrement fires
exactly on a sweep where the ribosome is still occluding with position at
or past the window (part 3), after which the ribosome can never
contribute again (part 2), and a full-grain elongation pass never changes
a ribosome's state or decreases its position (part 5), so the
contribution is made exactly once, on the iteration where the position
first reaches the window while the ribosome still occludes. -/
theorem C6_occlusion_window (occ : Nat) :
    (∀ (r : Ribosome) (j : Nat), r.position < occ →
        sweepRib occ r = r ∧ unoccContrib occ j r = 0)
    ∧ (∀ (r : Ribosome) (j : Nat), unoccContrib occ j (sweepRib occ r) = 0)
    ∧ (∀ r : Ribosome, r.state = .occluding → occ ≤ r.position →
        (sweepRib occ r).state = .polymerizing
        ∧ unoccContrib occ r.template_index r = 1)
    ∧ (∀ (bound : List ℤ) (ribs : List Ribosome),
        (∀ r ∈ ribs, r.template_index < bound.length) →
        (ribs.foldl (sweepStep occ) (bound, [])).2 = ribs.map (sweepRib occ)
        ∧ ∀ j, getIdx ((ribs.foldl (sweepStep occ) (bound, [])).1) j
            = getIdx bound j - ((ribs.map (unoccContrib occ j)).sum))
    ∧ (∀ (cfg : Config) (e : Elongation) (pool : MolMap) (ribs : List Ribosome),
        ∀ r2 ∈ (Elongation.step cfg e pool ribs).2.2.1,
          ∃ r1 ∈ ribs, r2.id = r1.id ∧ r2.state = r1.state
            ∧ r2.template_index = r1.template_index
            ∧ r2.template = r1.template ∧ r1.position ≤ r2.position) := by
  refine ⟨?_, ?_, ?_, ?_, ?_⟩
  · intro r j hpos
    have hu : r.is_unoccluding occ = false := by
      unfold Ribosome.is_unoccluding
      simp [Nat.not_le.mpr hpos]
    constructor
    · unfold sweepRib
      rw [if_neg (by simp [hu])]
    · unfold unoccContrib
      rw [if_neg (by simp [hu])]
  · intro r j
    unfold sweepRib
    by_cases hu : r.is_unoccluding occ
    · rw [if_pos hu]
      unfold unoccContrib
      rw [if_neg (by simp [Ribosome.is_unoccluding])]
    · rw [if_neg hu]
      unfold unoccContrib
      rw [if_neg (by simp [hu])]
  · intro r hstate hpos
    have hu : r.is_unoccluding occ = true := by
      unfold Ribosome.is_unoccluding
      simp [hstate, hpos]
    constructor
    · unfold sweepRib
      rw [if_pos hu]
    · unfold unoccContrib
      rw [if_pos (by simp [hu])]
  · intro bound ribs h
    exact ⟨sweepFold_ribs occ ribs bound [], sweepFold_bound occ ribs bound [] h⟩
  · exact elongStep_ribs_mem

/-- Concrete occluding ribosome at position 1 on transcript ("o1", "g1"),
used by the C6 witness. -/
def exRib : Ribosome :=
  { id := 1, state := .occluding, position := 1, template := ("o1", "g1"),
    template_index := 0, terminator := 0 }

/-- Witness for C6: an occluding ribosome at position 1 with window 1
unoccludes (state change and a single decrement contribution), and the
sweep over it produces exactly the per-ribosome sweep image. -/
theorem C6_occlusion_window_witness :
    ((sweepRib 1 exRib).state = .polymerizing
      ∧ unoccContrib 1 exRib.template_index exRib = 1)
    ∧ ([exRib].foldl (sweepStep 1) ([0, 0], [])).2 = [exRib].map (sweepRib 1) := by
  refine ⟨?_, ?_⟩
  · exact (C6_occlusion_window 1).2.2.1 exRib rfl (by decide)
  · exact ((C6_occlusion_window 1).2.2.2.1 [0, 0] [exRib] (by decide)).1

/-! ### Ribosome-id invariants (towards claim C4) -/

theorem contains_eq_false_iff (l : List Nat) (i : Nat) :
    (l.contains i = false) ↔ i ∉ l := by
  rw [Bool.eq_false_iff]
  exact not_congr List.elem_iff

/-- Invariant carried through the loop: the counter never falls below its
entry value `base`, all live ids are at most the counter, and every live
ribosome that was not part of the entry snapshot has an id strictly above
`base`. -/
def IdInv (base : Nat) (original : List Nat) (s : LoopState) : Prop :=
  base ≤ s.counter
  ∧ (∀ r ∈ s.ribosomes, r.id ≤ s.counter)
  ∧ (∀ r ∈ s.ribosomes, r.id ∉ original → base < r.id)

theorem ribInsert_of_fresh (ribs : List Ribosome) (r : Ribosome)
    (h : ∀ x ∈ ribs, x.id ≠ r.id) : ribInsert ribs r = ribs ++ [r] := by
  unfold ribInsert
  rw [if_neg]
  intro hc
  rw [List.any_eq_true] at hc
  obtain ⟨x, hx, hbeq⟩ := hc
  exact h x hx (by simpa using hbeq)

/-- The ribosome record that `applyEvent` creates when the incremented
counter is `c` (id `c`, template from the event index, default
template_index 0, position 0, state occluding). -/
def newRibosome (cfg : Config) (c : Nat) (ev : ℚ × Nat) : Ribosome :=
  { id := c
    state := .occluding
    position := 0
    template := cfg.transcript_order.getD ev.2 ("", "")
    template_index := 0
    terminator := 0 }

theorem applyEvent_inv (cfg : Config) (base : Nat) (original : List Nat)
    (s : LoopState) (ev : ℚ × Nat) (h : IdInv base original s) :
    IdInv base original (applyEvent cfg s ev) := by
  obtain ⟨h1, h2, h3⟩ := h
  have hctr : (applyEvent cfg s ev).counter = s.counter + 1 := rfl
  have hribs : (applyEvent cfg s ev).ribosomes
      = s.ribosomes ++ [newRibosome cfg (s.counter + 1) ev] := by
    show ribInsert s.ribosomes _ = _
    apply ribInsert_of_fresh
    intro x hx
    have := h2 x hx
    show x.id ≠ s.counter + 1
    omega
  rw [IdInv, hctr, hribs]
  refine ⟨by omega, ?_, ?_⟩
  · intro r hr
    rcases List.mem_append.mp hr with ha | hb
    · have := h2 r ha
      omega
    · have heq : r = newRibosome cfg (s.counter + 1) ev := by simpa using hb
      rw [heq]
      show s.counter + 1 ≤ s.counter + 1
      exact le_refl _
  · intro r hr hno
    rcases List.mem_append.mp hr with ha | hb
    · exact h3 r ha hno
    · have heq : r = newRibosome cfg (s.counter + 1) ev := by simpa using hb
      rw [heq]
      show base < s.counter + 1
      omega

theorem eventsFold_inv (cfg : Config) (base : Nat) (original : List Nat) :
    ∀ (l : List (ℚ × Nat)) (s : LoopState), IdInv base original s →
      IdInv base original (l.foldl (applyEvent cfg) s) := by
  intro l
  induction l with
  | nil => intro s h; exact h
  | cons e t ih =>
    intro s h
    rw [List.foldl_cons]
    exact ih _ (applyEvent_inv cfg base original s e h)

theorem elongPhase_counter (cfg : Config) (T : ℚ) (s : LoopState) :
    (elongPhase cfg T s).counter = s.counter := by
  unfold elongPhase
  dsimp only
  split <;> rfl

theorem elongPhase_ribs_sub (cfg : Config) (T : ℚ) (s : LoopState) :
    ∀ r2 ∈ (elongPhase cfg T s).ribosomes, ∃ r1 ∈ s.ribosomes, r2.id = r1.id := by
  unfold elongPhase
  dsimp only
  split
  · intro r2 h2
    obtain ⟨r1, h1, hid, _⟩ :=
      elongStep_ribs_mem cfg s.elong s.pool s.ribosomes r2 h2
    exact ⟨r1, h1, hid⟩
  · intro r2 h2
    exact ⟨r2, h2, rfl⟩

theorem elongPhase_inv (cfg : Config) (T : ℚ) (base : Nat) (original : List Nat)
    (s : LoopState) (h : IdInv base original s) :
    IdInv base original (elongPhase cfg T s) := by
  obtain ⟨h1, h2, h3⟩ := h
  refine ⟨by rw [elongPhase_counter]; exact h1, ?_, ?_⟩
  · intro r hr
    obtain ⟨r1, hm, hid⟩ := elongPhase_ribs_sub cfg T s r hr
    rw [elongPhase_counter, hid]
    exact h2 r1 hm
  · intro r hr hno
    obtain ⟨r1, hm, hid⟩ := elongPhase_ribs_sub cfg T s r hr
    rw [hid]
    exact h3 r1 hm (hid ▸ hno)

theorem sweepRib_id (occ : Nat) (r : Ribosome) : (sweepRib occ r).id = r.id := by
  unfold sweepRib
  split <;> rfl

theorem sweepPhase_ribs (cfg : Config) (s : LoopState) :
    (sweepPhase cfg s).ribosomes
      = s.ribosomes.map (sweepRib cfg.polymerase_occlusion) := by
  show (s.ribosomes.foldl (sweepStep cfg.polymerase_occlusion) (s.bound, [])).2 = _
  rw [sweepFold_ribs]
  rfl

theorem sweepPhase_inv (cfg : Config) (base : Nat) (original : List Nat)
    (s : LoopState) (h : IdInv base original s) :
    IdInv base original (sweepPhase cfg s) := by
  obtain ⟨h1, h2, h3⟩ := h
  have hctr : (sweepPhase cfg s).counter = s.counter := rfl
  refine ⟨by rw [hctr]; exact h1, ?_, ?_⟩
  · intro r hr
    rw [sweepPhase_ribs] at hr
    obtain ⟨r1, hm, heq⟩ := List.mem_map.mp hr
    rw [hctr, ← heq, sweepRib_id]
    exact h2 r1 hm
  · intro r hr hno
    rw [sweepPhase_ribs] at hr
    obtain ⟨r1, hm, heq⟩ := List.mem_map.mp hr
    rw [← heq, sweepRib_id]
    exact h3 r1 hm (by rw [← sweepRib_id cfg.polymerase_occlusion r1, heq]; exact hno)

theorem idInv_set_rebound (base : Nat) (original : List Nat) (s : LoopState)
    (b : Bool) (h : IdInv base original s) :
    IdInv base original { s with rebound := b } := h

theorem loopStep_inv (cfg : Config) (oracle : Nat → List (ℚ × Nat)) (T : ℚ)
    (base : Nat) (original : List Nat) (s : LoopState) (h : IdInv base original s) :
    IdInv base original (loopStep cfg oracle T s) := by
  have h1 := elongPhase_inv cfg T base original s h
  have h1b : IdInv base original
      (if min (1 / cfg.elongation_rate) (T - s.time) = 1 / cfg.elongation_rate
        then { elongPhase cfg T s with rebound := true }
        else elongPhase cfg T s) := by
    split
    · exact idInv_set_rebound base original _ true h1
    · exact h1
  have h2 := eventsFold_inv cfg base original
    (oracle (if min (1 / cfg.elongation_rate) (T - s.time) = 1 / cfg.elongation_rate
      then { elongPhase cfg T s with rebound := true }
      else elongPhase cfg T s).iter) _ h1b
  have h3 := sweepPhase_inv cfg base original _ h2
  exact h3

theorem loopN_inv (cfg : Config) (oracle : Nat → List (ℚ × Nat)) (T : ℚ)
    (base : Nat) (original : List Nat) :
    ∀ (n : Nat) (s : LoopState), IdInv base original s →
      IdInv base original (loopN cfg oracle T n s) := by
  intro n
  induction n with
  | zero => intro s h; exact h
  | succ m ih =>
    intro s h
    by_cases hg : s.time < T
    · have hunfold : loopN cfg oracle T (m + 1) s
          = loopN cfg oracle T m (loopStep cfg oracle T s) := by
        show (if s.time < T then _ else s) = _
        rw [if_pos hg]
      rw [hunfold]
      exact ih _ (loopStep_inv cfg oracle T base original s h)
    · rw [loopN_of_not_lt cfg oracle T (m + 1) s hg]
      exact h

/-! ### Live-keys-view lemmas (towards claim C4) -/

theorem elongPhase_view (cfg : Config) (T : ℚ) (s : LoopState) :
    (elongPhase cfg T s).origView = s.origView
    ∧ (elongPhase cfg T s).rebound = s.rebound := by
  unfold elongPhase
  dsimp only
  split <;> exact ⟨rfl, rfl⟩

theorem applyEvent_view_of_rebound (cfg : Config) (s : LoopState) (ev : ℚ × Nat)
    (h : s.rebound = true) :
    (applyEvent cfg s ev).origView = s.origView
    ∧ (applyEvent cfg s ev).rebound = true := by
  constructor
  · show (if s.rebound = true then s.origView
      else insertId s.origView (s.counter + 1)) = s.origView
    rw [if_pos h]
  · exact h

theorem eventsFold_view_of_rebound (cfg : Config) :
    ∀ (l : List (ℚ × Nat)) (s : LoopState), s.rebound = true →
      (l.foldl (applyEvent cfg) s).origView = s.origView
      ∧ (l.foldl (applyEvent cfg) s).rebound = true := by
  intro l
  induction l with
  | nil => intro s h; exact ⟨rfl, h⟩
  | cons e t ih =>
    intro s h
    rw [List.foldl_cons]
    obtain ⟨ha, hb⟩ := applyEvent_view_of_rebound cfg s e h
    obtain ⟨hc, hd⟩ := ih (applyEvent cfg s e) hb
    exact ⟨by rw [hc, ha], hd⟩

theorem eventsPhase_view_of_rebound (cfg : Config) (oracle : Nat → List (ℚ × Nat))
    (x : LoopState) (h : x.rebound = true) :
    (eventsPhase cfg oracle x).origView = x.origView
    ∧ (eventsPhase cfg oracle x).rebound = true :=
  eventsFold_view_of_rebound cfg (oracle x.iter) x h

/-- Once the `ribosomes` name has been rebound (or is about to be by a
full-grain iteration), one loop iteration leaves the frozen keys view
unchanged and keeps it frozen. -/
theorem loopStep_view (cfg : Config) (oracle : Nat → List (ℚ × Nat)) (T : ℚ)
    (s : LoopState)
    (h : s.rebound = true
      ∨ min (1 / cfg.elongation_rate) (T - s.time) = 1 / cfg.elongation_rate) :
    (loopStep cfg oracle T s).origView = s.origView
    ∧ (loopStep cfg oracle T s).rebound = true := by
  have key : ∀ x : LoopState, x.origView = s.origView → x.rebound = true →
      (sweepPhase cfg (eventsPhase cfg oracle x)).origView = s.origView
      ∧ (sweepPhase cfg (eventsPhase cfg oracle x)).rebound = true := by
    intro x h1 h2
    obtain ⟨he1, he2⟩ := eventsPhase_view_of_rebound cfg oracle x h2
    constructor
    · show (eventsPhase cfg oracle x).origView = s.origView
      rw [he1, h1]
    · show (eventsPhase cfg oracle x).rebound = true
      exact he2
  by_cases hfull : min (1 / cfg.elongation_rate) (T - s.time) = 1 / cfg.elongation_rate
  · have hx := key { elongPhase cfg T s with rebound := true }
      (elongPhase_view cfg T s).1 rfl
    constructor
    · show (sweepPhase cfg (eventsPhase cfg oracle
        (if min (1 / cfg.elongation_rate) (T - s.time) = 1 / cfg.elongation_rate
          then { elongPhase cfg T s with rebound := true }
          else elongPhase cfg T s))).origView = s.origView
      rw [if_pos hfull]
      exact hx.1
    · show (sweepPhase cfg (eventsPhase cfg oracle
        (if min (1 / cfg.elongation_rate) (T - s.time) = 1 / cfg.elongation_rate
          then { elongPhase cfg T s with rebound := true }
          else elongPhase cfg T s))).rebound = true
      rw [if_pos hfull]
      exact hx.2
  · rcases h with hreb | h
    · have hx := key (elongPhase cfg T s) (elongPhase_view cfg T s).1
        (by rw [(elongPhase_view cfg T s).2]; exact hreb)
      constructor
      · show (sweepPhase cfg (eventsPhase cfg oracle
          (if min (1 / cfg.elongation_rate) (T - s.time) = 1 / cfg.elongation_rate
            then { elongPhase cfg T s with rebound := true }
            else elongPhase cfg T s))).origView = s.origView
        rw [if_neg hfull]
        exact hx.1
      · show (sweepPhase cfg (eventsPhase cfg oracle
          (if min (1 / cfg.elongation_rate) (T - s.time) = 1 / cfg.elongation_rate
            then { elongPhase cfg T s with rebound := true }
            else elongPhase cfg T s))).rebound = true
        rw [if_neg hfull]
        exact hx.2
    · exact absurd h hfull

theorem loopN_view_of_rebound (cfg : Config) (oracle : Nat → List (ℚ × Nat))
    (T : ℚ) :
    ∀ (n : Nat) (s : LoopState), s.rebound = true →
      (loopN cfg oracle T n s).origView = s.origView
      ∧ (loopN cfg oracle T n s).rebound = true := by
  intro n
  induction n with
  | zero => intro s h; exact ⟨rfl, h⟩
  | succ m ih =>
    intro s h
    by_cases hg : s.time < T
    · have hunfold : loopN cfg oracle T (m + 1) s
          = loopN cfg oracle T m (loopStep cfg oracle T s) := by
        show (if s.time < T then _ else s) = _
        rw [if_pos hg]
      rw [hunfold]
      obtain ⟨h1, h2⟩ := loopStep_view cfg oracle T s (Or.inl h)
      obtain ⟨h3, h4⟩ := ih (loopStep cfg oracle T s) h2
      exact ⟨by rw [h3, h1], h4⟩
    · rw [loopN_of_not_lt cfg oracle T (m + 1) s hg]
      exact ⟨rfl, h⟩

/-- Every id in the live keys view is either an entry id or the id of a
currently live ribosome (the inserts that reach the view are exactly the
inserts into the still-live viewed dict). -/
def ViewSound (E : List Nat) (s : LoopState) : Prop :=
  ∀ i ∈ s.origView, i ∈ E ∨ i ∈ s.ribosomes.map Ribosome.id

theorem ribInsert_map_id_mem (ribs : List Ribosome) (r : Ribosome) (i : Nat)
    (h : i ∈ ribs.map Ribosome.id ∨ i = r.id) :
    i ∈ (ribInsert ribs r).map Ribosome.id := by
  unfold ribInsert
  split
  · next hany =>
    rcases h with hm | hir
    · obtain ⟨x, hx, rfl⟩ := List.mem_map.mp hm
      refine List.mem_map.mpr ⟨if x.id == r.id then r else x,
        List.mem_map_of_mem _ hx, ?_⟩
      by_cases hxr : x.id = r.id
      · rw [if_pos (by simp [hxr])]
        exact hxr.symm
      · rw [if_neg (by simp [hxr])]
    · rw [List.any_eq_true] at hany
      obtain ⟨x, hx, hb⟩ := hany
      refine List.mem_map.mpr ⟨if x.id == r.id then r else x,
        List.mem_map_of_mem _ hx, ?_⟩
      rw [if_pos hb, hir]
  · rcases h with hm | hir
    · rw [List.map_append]
      exact List.mem_append.mpr (Or.inl hm)
    · rw [List.map_append, hir]
      exact List.mem_append.mpr (Or.inr (by simp))

theorem applyEvent_viewSound (cfg : Config) (E : List Nat) (s : LoopState)
    (ev : ℚ × Nat) (h : ViewSound E s) : ViewSound E (applyEvent cfg s ev) := by
  intro i hi
  have hi' : i ∈ (if s.rebound = true then s.origView
      else insertId s.origView (s.counter + 1)) := hi
  have hview : i ∈ s.origView ∨ i = s.counter + 1 := by
    by_cases hr : s.rebound = true
    · rw [if_pos hr] at hi'
      exact Or.inl hi'
    · rw [if_neg hr] at hi'
      unfold insertId at hi'
      split at hi'
      · exact Or.inl hi'
      · rcases List.mem_append.mp hi' with h1 | h2
        · exact Or.inl h1
        · exact Or.inr (by simpa using h2)
  rcases hview with h1 | h1
  · rcases h i h1 with hE | hR
    · exact Or.inl hE
    · right
      show i ∈ (ribInsert s.ribosomes _).map Ribosome.id
      exact ribInsert_map_id_mem _ _ i (Or.inl hR)
  · right
    show i ∈ (ribInsert s.ribosomes _).map Ribosome.id
    exact ribInsert_map_id_mem _ _ i (Or.inr h1)

theorem eventsFold_viewSound (cfg : Config) (E : List Nat) :
    ∀ (l : List (ℚ × Nat)) (s : LoopState), ViewSound E s →
      ViewSound E (l.foldl (applyEvent cfg) s) := by
  intro l
  induction l with
  | nil => intro s h; exact h
  | cons e t ih =>
    intro s h
    rw [List.foldl_cons]
    exact ih _ (applyEvent_viewSound cfg E s e h)

theorem sweepPhase_viewSound (cfg : Config) (E : List Nat) (s : LoopState)
    (h : ViewSound E s) : ViewSound E (sweepPhase cfg s) := by
  intro i hi
  rcases h i hi with hE | hR
  · exact Or.inl hE
  · right
    rw [sweepPhase_ribs]
    obtain ⟨x, hx, rfl⟩ := List.mem_map.mp hR
    exact List.mem_map.mpr ⟨sweepRib cfg.polymerase_occlusion x,
      List.mem_map_of_mem _ hx, sweepRib_id _ _⟩

/-- A partial-step iteration (no rebinding at line 491) keeps the view
sound: ids it adds to the view are live ribosomes. -/
theorem loopStep_viewSound_of_partial (cfg : Config)
    (oracle : Nat → List (ℚ × Nat)) (T : ℚ) (E : List Nat) (s : LoopState)
    (hne : min (1 / cfg.elongation_rate) (T - s.time) ≠ 1 / cfg.elongation_rate)
    (h : ViewSound E s) : ViewSound E (loopStep cfg oracle T s) := by
  have hep : elongPhase cfg T s = { s with
      elong := s.elong.storeFractionalStep cfg
        (min (1 / cfg.elongation_rate) (T - s.time)) } := by
    show (if min (1 / cfg.elongation_rate) (T - s.time) = 1 / cfg.elongation_rate
      then _ else _) = _
    rw [if_neg hne]
  have h1 : ViewSound E (elongPhase cfg T s) := by
    rw [hep]
    exact h
  have hs1b : ViewSound E
      (if min (1 / cfg.elongation_rate) (T - s.time) = 1 / cfg.elongation_rate
        then { elongPhase cfg T s with rebound := true }
        else elongPhase cfg T s) := by
    rw [if_neg hne]
    exact h1
  have h2 := eventsFold_viewSound cfg E
    (oracle (if min (1 / cfg.elongation_rate) (T - s.time) = 1 / cfg.elongation_rate
      then { elongPhase cfg T s with rebound := true }
      else elongPhase cfg T s).iter) _ hs1b
  have h3 := sweepPhase_viewSound cfg E _ h2
  exact h3

theorem applyEvent_view_supset (cfg : Config) (s : LoopState) (ev : ℚ × Nat) :
    ∀ i ∈ s.origView, i ∈ (applyEvent cfg s ev).origView := by
  intro i hi
  show i ∈ (if s.rebound = true then s.origView
    else insertId s.origView (s.counter + 1))
  split
  · exact hi
  · unfold insertId
    split
    · exact hi
    · exact List.mem_append.mpr (Or.inl hi)

theorem eventsFold_view_supset (cfg : Config) :
    ∀ (l : List (ℚ × Nat)) (s : LoopState),
      ∀ i ∈ s.origView, i ∈ (l.foldl (applyEvent cfg) s).origView := by
  intro l
  induction l with
  | nil => intro s i hi; exact hi
  | cons e t ih =>
    intro s i hi
    rw [List.foldl_cons]
    exact ih _ i (applyEvent_view_supset cfg s e i hi)

theorem loopStep_view_supset (cfg : Config) (oracle : Nat → List (ℚ × Nat))
    (T : ℚ) (s : LoopState) :
    ∀ i ∈ s.origView, i ∈ (loopStep cfg oracle T s).origView := by
  intro i hi
  show i ∈ (sweepPhase cfg (eventsPhase cfg oracle
    (if min (1 / cfg.elongation_rate) (T - s.time) = 1 / cfg.elongation_rate
      then { elongPhase cfg T s with rebound := true }
      else elongPhase cfg T s))).origView
  apply eventsFold_view_supset
  by_cases hc : min (1 / cfg.elongation_rate) (T - s.time) = 1 / cfg.elongation_rate
  · rw [if_pos hc]
    show i ∈ (elongPhase cfg T s).origView
    rw [(elongPhase_view cfg T s).1]
    exact hi
  · rw [if_neg hc]
    rw [(elongPhase_view cfg T s).1]
    exact hi

theorem loopN_view_supset (cfg : Config) (oracle : Nat → List (ℚ × Nat)) (T : ℚ) :
    ∀ (n : Nat) (s : LoopState),
      ∀ i ∈ s.origView, i ∈ (loopN cfg oracle T n s).origView := by
  intro n
  induction n with
  | zero => intro s i hi; exact hi
  | succ m ih =>
    intro s i hi
    by_cases hg : s.time < T
    · have hunfold : loopN cfg oracle T (m + 1) s
          = loopN cfg oracle T m (loopStep cfg oracle T s) := by
        show (if s.time < T then _ else s) = _
        rw [if_pos hg]
      rw [hunfold]
      exact ih _ i (loopStep_view_supset cfg oracle T s i hi)
    · rw [loopN_of_not_lt cfg oracle T (m + 1) s hg]
      exact hi

/-- When the whole call fits in a single partial grain (0 < T <
1/elongation_rate), the loop runs exactly one iteration. -/
theorem loopN_partial_single (cfg : Config) (oracle : Nat → List (ℚ × Nat))
    (T : ℚ) (hT : 0 < T) (ps : PState) (snap : Snapshot)
    (hTd : T < 1 / cfg.elongation_rate) :
    loopN cfg oracle T (loopFuel cfg T) (initLoop cfg ps snap)
      = loopStep cfg oracle T (initLoop cfg ps snap) := by
  have h0 : (initLoop cfg ps snap).time = 0 := rfl
  have ht1 : (loopStep cfg oracle T (initLoop cfg ps snap)).time = T := by
    rw [loopStep_time, h0, sub_zero, min_eq_right hTd.le]
    ring
  show loopN cfg oracle T ((ceilQ (T * cfg.elongation_rate)).toNat + 1)
    (initLoop cfg ps snap) = _
  show (if (initLoop cfg ps snap).time < T then
    loopN cfg oracle T ((ceilQ (T * cfg.elongation_rate)).toNat)
      (loopStep cfg oracle T (initLoop cfg ps snap))
    else initLoop cfg ps snap) = _
  rw [if_pos (by rw [h0]; exact hT)]
  exact loopN_of_not_lt cfg oracle T _ _ (by rw [ht1]; exact lt_irrefl T)

/-- When the call contains at least one full grain, the first iteration
rebinds `ribosomes` (line 491) before any event insert, so the keys view
of line 430 is frozen at the entry id set. -/
theorem origView_full_eq (cfg : Config) (oracle : Nat → List (ℚ × Nat))
    (ps : PState) (T : ℚ) (snap : Snapshot)
    (hd : 1 / cfg.elongation_rate ≤ T) :
    (loopN cfg oracle T (loopFuel cfg T) (initLoop cfg ps snap)).origView
      = snap.ribosomes.map Ribosome.id := by
  have h0 : (initLoop cfg ps snap).time = 0 := rfl
  by_cases hT : 0 < T
  · have hfull0 : min (1 / cfg.elongation_rate)
        (T - (initLoop cfg ps snap).time) = 1 / cfg.elongation_rate := by
      rw [h0, sub_zero]
      exact min_eq_left hd
    have hs1 := loopStep_view cfg oracle T (initLoop cfg ps snap) (Or.inr hfull0)
    show (loopN cfg oracle T ((ceilQ (T * cfg.elongation_rate)).toNat + 1)
      (initLoop cfg ps snap)).origView = _
    show ((if (initLoop cfg ps snap).time < T then
      loopN cfg oracle T ((ceilQ (T * cfg.elongation_rate)).toNat)
        (loopStep cfg oracle T (initLoop cfg ps snap))
      else initLoop cfg ps snap)).origView = _
    rw [if_pos (by rw [h0]; exact hT)]
    obtain ⟨ha, -⟩ := loopN_view_of_rebound cfg oracle T
      ((ceilQ (T * cfg.elongation_rate)).toNat)
      (loopStep cfg oracle T (initLoop cfg ps snap)) hs1.2
    rw [ha, hs1.1]
    rfl
  · rw [loopN_of_not_lt cfg oracle T _ _ (by rw [h0]; exact hT)]
    rfl

/-- Every id the delete list can mention was present at call entry: the
view only ever grows by ids of ribosomes that are then live and never
removed before the loop ends (a pre-rebinding insert only happens in a
final partial iteration). -/
theorem delete_subset_entry (cfg : Config) (oracle : Nat → List (ℚ × Nat))
    (ps : PState) (T : ℚ) (snap : Snapshot) :
    ∀ i, i ∈ (loopN cfg oracle T (loopFuel cfg T) (initLoop cfg ps snap)).origView →
      i ∉ (loopN cfg oracle T (loopFuel cfg T)
        (initLoop cfg ps snap)).ribosomes.map Ribosome.id →
      i ∈ snap.ribosomes.map Ribosome.id := by
  intro i hiv hic
  by_cases hd : 1 / cfg.elongation_rate ≤ T
  · rw [origView_full_eq cfg oracle ps T snap hd] at hiv
    exact hiv
  · push_neg at hd
    by_cases hT : 0 < T
    · rw [loopN_partial_single cfg oracle T hT ps snap hd] at hiv hic
      have hne : min (1 / cfg.elongation_rate)
          (T - (initLoop cfg ps snap).time) ≠ 1 / cfg.elongation_rate := by
        rw [show (initLoop cfg ps snap).time = 0 from rfl, sub_zero,
          min_eq_right hd.le]
        exact ne_of_lt hd
      have hvs0 : ViewSound (snap.ribosomes.map Ribosome.id)
          (initLoop cfg ps snap) := fun j hj => Or.inl hj
      rcases loopStep_viewSound_of_partial cfg oracle T
        (snap.ribosomes.map Ribosome.id) (initLoop cfg ps snap) hne hvs0 i hiv
        with hE | hR
      · exact hE
      · exact absurd hR hic
    · rw [loopN_of_not_lt cfg oracle T _ _
        (by rw [show (initLoop cfg ps snap).time = 0 from rfl]; exact hT)] at hiv
      exact hiv

/-! ### Claim C4 -/

/-- C4 counterexample: the claim as stated (add list = exit ids minus
call-entry ids, overwrite map = entry ids intersect exit ids) is false on
the code.  `original` at translation.py:544 is the live `dict.keys()`
view taken at line 430; with duration 1/2 and elongation rate 1 the whole
call is one partial step, line 491 never rebinds `ribosomes`, so the
binding event's insert at line 520 lands in the viewed dict: the new
ribosome (id 1, present at exit, absent at entry) is emitted in the
overwrite map and the add list is empty — the claim demands add = [1] and
an empty overwrite map here. -/
theorem C4_live_view_counterexample :
    (next_update exCfg2 exOracle2 ⟨0, 0⟩ (1 / 2) exSnap2).2.ribosomes.add = []
    ∧ (next_update exCfg2 exOracle2 ⟨0, 0⟩ (1 / 2)
        exSnap2).2.ribosomes.overwrites.map Ribosome.id = [1]
    ∧ (loopN exCfg2 exOracle2 (1 / 2) (loopFuel exCfg2 (1 / 2))
        (initLoop exCfg2 ⟨0, 0⟩ exSnap2)).ribosomes.map Ribosome.id = [1]
    ∧ exSnap2.ribosomes.map Ribosome.id = [] := by
  refine ⟨?_, ?_, ?_, ?_⟩ <;> with_unfolding_all rfl

/-- C4 (amended): the update's add list is exactly `current - original`,
its delete list exactly `original - current`, and its overwrite map
exactly `original ∩ current`, where `original` is the id set of the live
`keys()` view of translation.py:430 as materialized at line 544 — equal
to the call-entry id set whenever the call contains at least one full
elongation grain (1/elongation_rate ≤ T, last conjunct), but also
containing the ids created during the call when the whole call is a
single partial step.  In all cases added and removed ids are disjoint,
every removed id was present at call entry, and (for a snapshot holding
only previously issued ids, at most the persistent counter) every added
id is strictly greater than any previously issued id. -/
theorem C4_ribosome_set_diff_amended (cfg : Config)
    (oracle : Nat → List (ℚ × Nat)) (ps : PState) (T : ℚ) (snap : Snapshot)
    (hle : ∀ r ∈ snap.ribosomes, r.id ≤ ps.ribosome_id) :
    let entryIds := snap.ribosomes.map Ribosome.id
    let sF := loopN cfg oracle T (loopFuel cfg T) (initLoop cfg ps snap)
    let original := sF.origView
    let current := sF.ribosomes.map Ribosome.id
    let u := (next_update cfg oracle ps T snap).2.ribosomes
    (∀ i, i ∈ u.add.map Ribosome.id ↔ (i ∈ current ∧ i ∉ original))
    ∧ (∀ i, i ∈ u.delete ↔ (i ∈ original ∧ i ∉ current))
    ∧ (∀ i, i ∈ u.overwrites.map Ribosome.id ↔ (i ∈ original ∧ i ∈ current))
    ∧ (∀ i, i ∈ u.add.map Ribosome.id → i ∉ u.delete)
    ∧ (∀ i, i ∈ u.delete → i ∈ entryIds)
    ∧ (∀ i, i ∈ u.add.map Ribosome.id → ps.ribosome_id < i)
    ∧ (1 / cfg.elongation_rate ≤ T → original = entryIds) := by
  intro entryIds sF original current u
  have hadd : ∀ i, i ∈ u.add.map Ribosome.id ↔ (i ∈ current ∧ i ∉ original) := by
    intro i
    show i ∈ (sF.ribosomes.filter
      (fun r => !(original.contains r.id))).map Ribosome.id ↔ _
    simp only [List.mem_map, List.mem_filter, Bool.not_eq_true',
      contains_eq_false_iff]
    constructor
    · rintro ⟨r, ⟨hm, hn⟩, rfl⟩
      exact ⟨List.mem_map.mpr ⟨r, hm, rfl⟩, hn⟩
    · rintro ⟨hic, hio⟩
      obtain ⟨r, hm, rfl⟩ := List.mem_map.mp hic
      exact ⟨r, ⟨hm, hio⟩, rfl⟩
  have hdel : ∀ i, i ∈ u.delete ↔ (i ∈ original ∧ i ∉ current) := by
    intro i
    show i ∈ original.filter
      (fun j => !((sF.ribosomes.map Ribosome.id).contains j)) ↔ _
    rw [List.mem_filter]
    simp only [Bool.not_eq_true', contains_eq_false_iff]
  have hovr : ∀ i, i ∈ u.overwrites.map Ribosome.id ↔ (i ∈ original ∧ i ∈ current) := by
    intro i
    show i ∈ (sF.ribosomes.filter
      (fun r => original.contains r.id)).map Ribosome.id ↔ _
    simp only [List.mem_map, List.mem_filter]
    constructor
    · rintro ⟨r, ⟨hm, hn⟩, rfl⟩
      exact ⟨List.elem_iff.mp hn, List.mem_map.mpr ⟨r, hm, rfl⟩⟩
    · rintro ⟨hio, hic⟩
      obtain ⟨r, hm, rfl⟩ := List.mem_map.mp hic
      exact ⟨r, ⟨hm, List.elem_iff.mpr hio⟩, rfl⟩
  have hinv0 : IdInv ps.ribosome_id entryIds (initLoop cfg ps snap) :=
    ⟨le_refl _, fun r hr => hle r hr,
     fun r hr hno => absurd (List.mem_map_of_mem Ribosome.id hr) hno⟩
  have hinvF : IdInv ps.ribosome_id entryIds sF :=
    loopN_inv cfg oracle T ps.ribosome_id entryIds (loopFuel cfg T)
      (initLoop cfg ps snap) hinv0
  refine ⟨hadd, hdel, hovr, ?_, ?_, ?_, ?_⟩
  · intro i hi
    obtain ⟨-, hno⟩ := (hadd i).mp hi
    intro hdel2
    exact hno ((hdel i).mp hdel2).1
  · intro i hi
    obtain ⟨hiv, hic⟩ := (hdel i).mp hi
    exact delete_subset_entry cfg oracle ps T snap i hiv hic
  · intro i hi
    obtain ⟨hic, hio⟩ := (hadd i).mp hi
    have hioE : i ∉ entryIds := fun hiE =>
      hio (loopN_view_supset cfg oracle T (loopFuel cfg T)
        (initLoop cfg ps snap) i hiE)
    obtain ⟨r, hm, rfl⟩ := List.mem_map.mp hic
    exact hinvF.2.2 r hm hioE
  · intro hd
    exact origView_full_eq cfg oracle ps T snap hd

/-- Witness for C4 (amended): in the two-transcript scenario with duration
3 (six full grains), every added ribosome id is strictly positive and the
materialized view equals the entry id set. -/
theorem C4_ribosome_set_diff_amended_witness :
    (∀ r ∈ exSnap2.ribosomes, r.id ≤ (0 : Nat))
    ∧ (∀ i, i ∈ ((next_update exCfg2 exOracle2 ⟨0, 0⟩ 3 exSnap2).2.ribosomes.add.map
        Ribosome.id) → 0 < i)
    ∧ ((1 : ℚ) / exCfg2.elongation_rate ≤ 3 →
        (loopN exCfg2 exOracle2 3 (loopFuel exCfg2 3)
          (initLoop exCfg2 ⟨0, 0⟩ exSnap2)).origView
          = exSnap2.ribosomes.map Ribosome.id) := by
  refine ⟨by simp [exSnap2], ?_, ?_⟩
  · exact (C4_ribosome_set_diff_amended exCfg2 exOracle2 ⟨0, 0⟩ 3 exSnap2
      (by simp [exSnap2])).2.2.2.2.2.1
  · exact (C4_ribosome_set_diff_amended exCfg2 exOracle2 ⟨0, 0⟩ 3 exSnap2
      (by simp [exSnap2])).2.2.2.2.2.2

end VivCell
